import Mathlib

/-!
Verification development for the Community Render add-on
(`community_render.py`).  Python strings are modelled as `List Char`
(`PyStr`), and the string primitives used by the add-on (`str.split` on a
one-character separator, `str.join`, `in`, `startswith`, `lower`, `int(...)`)
are given executable definitions that mirror Python's semantics for the
inputs the add-on produces.  Rows of the submission list, the QC-error
ledger, the render queue scan, the crash-marker protocol, the render-output
existence check, the TSV metadata loader and the donut-selection heuristic
are then embedded shallowly and the spec claims are settled against them.
-/

/-- Python strings, modelled as lists of characters. -/
abbrev PyStr := List Char

/-- Coerce a Lean string literal into the `PyStr` model. -/
def pys (s : String) : PyStr := s.toList

/-- Python `s.split(c)` for a one-character separator `c`
(every split in the add-on uses `";"` or `":"`).  Always non-empty;
`"".split(c) == [""]`. -/
def splitChar (c : Char) : PyStr → List PyStr
  | [] => [[]]
  | a :: rest =>
    if a = c then [] :: splitChar c rest
    else
      match splitChar c rest with
      | [] => [[a]]
      | h :: t => (a :: h) :: t

/-- Python `c.join(parts)` for a one-character separator. -/
def joinChar (c : Char) : List PyStr → PyStr
  | [] => []
  | [t] => t
  | t :: rest => t ++ c :: joinChar c rest

/-- Python `s.startswith(n)`. -/
def pyStarts : PyStr → PyStr → Bool
  | [], _ => true
  | _ :: _, [] => false
  | a :: n, b :: s => a = b && pyStarts n s

/-- Python `n in hay` (substring containment). -/
def pyInB (n : PyStr) : PyStr → Bool
  | [] => pyStarts n []
  | c :: t => pyStarts n (c :: t) || pyInB n t

/-- Python `s.lower()` (the add-on only lowercases ASCII names/tags). -/
def pyLower (s : PyStr) : PyStr := s.map Char.toLower

/-- Python `s.endswith(n)`. -/
def pyEnds (s n : PyStr) : Bool := pyStarts n.reverse s.reverse

/-- Value of a single decimal digit character, `none` for non-digits. -/
def charVal (c : Char) : Option Nat :=
  if '0' ≤ c ∧ c ≤ '9' then some (c.toNat - 48) else none

/-- Character of a single decimal digit value (inputs are `< 10`). -/
def digitChar (n : Nat) : Char := Char.ofNat (48 + n % 10)

/-- Numeric value of a non-empty all-digit string, else `none`. -/
def digitsVal : PyStr → Option Nat
  | [] => none
  | s => s.foldl (fun acc c =>
      match acc, charVal c with
      | some a, some d => some (a * 10 + d)
      | _, _ => none) (some 0)

/-- Fuel-bounded digit expansion; fuel `n + 1` always suffices. -/
def natStrAux : Nat → Nat → PyStr
  | 0, _ => []
  | f + 1, n =>
    if n < 10 then [digitChar n]
    else natStrAux f (n / 10) ++ [digitChar (n % 10)]

/-- Decimal digit string of a natural number, mirroring Python `str(n)`. -/
def natStr (n : Nat) : PyStr := natStrAux (n + 1) n

theorem natStrAux_fuel (n : Nat) : ∀ f : Nat, n < f →
    natStrAux f n = natStrAux (n + 1) n := by
  induction n using Nat.strong_induction_on with
  | _ n ih =>
    intro f hf
    cases f with
    | zero => omega
    | succ f2 =>
      rw [natStrAux]
      conv_rhs => rw [natStrAux]
      by_cases h10 : n < 10
      · rw [if_pos h10, if_pos h10]
      · rw [if_neg h10, if_neg h10]
        have hd : n / 10 < n := Nat.div_lt_self (by omega) (by decide)
        rw [ih (n / 10) hd f2 (by omega), ih (n / 10) hd n (by omega)]

/-- Unfolding equation for `natStr`. -/
theorem natStr_unfold (n : Nat) : natStr n =
    if n < 10 then [digitChar n]
    else natStr (n / 10) ++ [digitChar (n % 10)] := by
  rw [natStr, natStrAux]
  by_cases h10 : n < 10
  · rw [if_pos h10, if_pos h10]
  · rw [if_neg h10, if_neg h10, natStr,
      natStrAux_fuel (n / 10) n (Nat.div_lt_self (by omega) (by decide))]

/-- Decimal string of an integer, mirroring Python `str(i)`. -/
def intStr (i : Int) : PyStr :=
  if i < 0 then '-' :: natStr i.natAbs else natStr i.natAbs

/-- Python `s.strip()` for whitespace. -/
def pyStrip (s : PyStr) : PyStr :=
  ((s.dropWhile Char.isWhitespace).reverse.dropWhile Char.isWhitespace).reverse

/-- Sign-and-digits part of Python `int(s)` after stripping. -/
def pyIntCore (s : PyStr) : Option Int :=
  if pyStarts ['-'] s then (digitsVal (s.drop 1)).map (fun n => -(n : Int))
  else if pyStarts ['+'] s then (digitsVal (s.drop 1)).map (fun n => (n : Int))
  else (digitsVal s).map (fun n => (n : Int))

/-- Python `int(s)`: strip whitespace, optional sign, decimal digits;
`none` models raising `ValueError`.  (Underscore separators and non-ASCII
digits, which Python would also accept, never occur in this pipeline.) -/
def pyInt (s : PyStr) : Option Int := pyIntCore (pyStrip s)

-- Basic lemmas about the string primitives.

theorem splitChar_ne_nil (c : Char) (s : PyStr) : splitChar c s ≠ [] := by
  cases s with
  | nil => simp [splitChar]
  | cons a rest =>
    simp only [splitChar]
    split
    · simp
    · split <;> simp

theorem not_mem_of_mem_splitChar {c : Char} {s t : PyStr}
    (h : t ∈ splitChar c s) : c ∉ t := by
  induction s generalizing t with
  | nil => simp [splitChar] at h; simp [h]
  | cons a rest ih =>
    simp only [splitChar] at h
    by_cases hac : a = c
    · simp [hac] at h
      rcases h with h | h
      · simp [h]
      · exact ih h
    · simp [hac] at h
      rcases hsp : splitChar c rest with _ | ⟨hd, tl⟩
      · exact absurd hsp (splitChar_ne_nil c rest)
      · rw [hsp] at h
        simp at h
        rcases h with h | h
        · subst h
          have hhd : hd ∈ splitChar c rest := by rw [hsp]; exact List.mem_cons_self _ _
          have := ih hhd
          intro hmem
          rcases List.mem_cons.mp hmem with h1 | h1
          · exact hac h1.symm
          · exact this h1
        · exact ih (by rw [hsp]; exact List.mem_cons_of_mem _ h)

/-- Splitting a string that does not contain the separator is the identity. -/
theorem splitChar_of_not_mem {c : Char} {s : PyStr} (h : c ∉ s) :
    splitChar c s = [s] := by
  induction s with
  | nil => simp [splitChar]
  | cons a rest ih =>
    simp at h
    simp only [splitChar]
    rw [if_neg (fun hh => h.1 hh.symm), ih h.2]

/-- Splitting after a separator-free chunk peels that chunk off. -/
theorem splitChar_append_cons {c : Char} {x rest : PyStr} (h : c ∉ x) :
    splitChar c (x ++ c :: rest) = x :: splitChar c rest := by
  induction x with
  | nil => simp [splitChar]
  | cons a t ih =>
    simp at h
    simp only [List.cons_append, splitChar, List.append_eq]
    rw [if_neg (fun hh => h.1 hh.symm), ih h.2]

/-- Round trip: splitting a join of separator-free chunks recovers the chunks. -/
theorem splitChar_joinChar {c : Char} {l : List PyStr}
    (hl : l ≠ []) (h : ∀ t ∈ l, c ∉ t) :
    splitChar c (joinChar c l) = l := by
  induction l with
  | nil => exact absurd rfl hl
  | cons a rest ih =>
    cases rest with
    | nil =>
      simp only [joinChar]
      exact splitChar_of_not_mem (h a (List.mem_cons_self _ _))
    | cons b t =>
      have hja : joinChar c (a :: b :: t) = a ++ c :: joinChar c (b :: t) := rfl
      rw [hja, splitChar_append_cons (h a (List.mem_cons_self _ _))]
      rw [ih (by simp) (fun x hx => h x (List.mem_cons_of_mem _ hx))]

theorem joinChar_eq_nil_iff {c : Char} {l : List PyStr} :
    joinChar c l = [] ↔ l = [] ∨ l = [[]] := by
  cases l with
  | nil => simp [joinChar]
  | cons a rest =>
    cases rest with
    | nil => simp [joinChar]
    | cons b t =>
      have : joinChar c (a :: b :: t) = a ++ c :: joinChar c (b :: t) := rfl
      rw [this]
      simp

theorem pyStarts_refl (s : PyStr) : pyStarts s s = true := by
  induction s with
  | nil => rfl
  | cons a t ih => simp [pyStarts, ih]

theorem pyStarts_append (n s u : PyStr) (h : pyStarts n s = true) :
    pyStarts n (s ++ u) = true := by
  induction n generalizing s with
  | nil => rfl
  | cons a t ih =>
    cases s with
    | nil => simp [pyStarts] at h
    | cons b s2 =>
      simp [pyStarts] at h ⊢
      exact ⟨h.1, ih s2 h.2⟩

theorem pyStarts_self_append (s u : PyStr) : pyStarts s (s ++ u) = true :=
  pyStarts_append s s u (pyStarts_refl s)

theorem pyInB_of_starts {n s : PyStr} (h : pyStarts n s = true) :
    pyInB n s = true := by
  cases s with
  | nil => simpa [pyInB] using h
  | cons a t => simp [pyInB, h]

theorem pyInB_append_left {n x : PyStr} (y : PyStr) (h : pyInB n x = true) :
    pyInB n (x ++ y) = true := by
  induction x with
  | nil =>
    simp [pyInB] at h
    cases n with
    | nil => exact pyInB_of_starts rfl
    | cons a t => simp [pyStarts] at h
  | cons a t ih =>
    simp only [pyInB, Bool.or_eq_true] at h
    rcases h with h | h
    · simpa [pyInB] using Or.inl (pyStarts_append n (a :: t) y h)
    · simpa [pyInB] using Or.inr (ih h)

theorem pyInB_append_right {n y : PyStr} (x : PyStr) (h : pyInB n y = true) :
    pyInB n (x ++ y) = true := by
  induction x with
  | nil => simpa using h
  | cons a t ih => simpa [pyInB] using Or.inr ih

/-- A needle contained in any chunk of a join is contained in the join. -/
theorem pyInB_joinChar {c : Char} {n t : PyStr} {l : List PyStr}
    (hmem : t ∈ l) (h : pyInB n t = true) : pyInB n (joinChar c l) = true := by
  induction l with
  | nil => simp at hmem
  | cons a rest ih =>
    rcases List.mem_cons.mp hmem with h1 | h1
    · subst h1
      cases rest with
      | nil => simpa [joinChar] using h
      | cons b t2 =>
        have hja : joinChar c (t :: b :: t2) = t ++ c :: joinChar c (b :: t2) := rfl
        rw [hja]
        exact pyInB_append_left _ h
    · cases rest with
      | nil => simp at h1
      | cons b t2 =>
        have hja : joinChar c (a :: b :: t2) = a ++ c :: joinChar c (b :: t2) := rfl
        rw [hja]
        refine pyInB_append_right _ ?_
        simpa [pyInB] using Or.inr (ih h1)

theorem digitsVal_append_digit (s : PyStr) (d : Nat) (hd : d < 10)
    (v : Nat) (h : digitsVal s = some v) :
    digitsVal (s ++ [digitChar d]) = some (v * 10 + d) := by
  have hcv : charVal (digitChar d) = some d := by
    interval_cases d <;> rfl
  cases s with
  | nil => simp [digitsVal] at h
  | cons a t =>
    have hfold : ∀ (l : PyStr) (acc : Option Nat),
        List.foldl (fun acc c =>
          match acc, charVal c with
          | some a, some d => some (a * 10 + d)
          | _, _ => none) acc (l ++ [digitChar d]) =
        match List.foldl (fun acc c =>
          match acc, charVal c with
          | some a, some d => some (a * 10 + d)
          | _, _ => none) acc l, charVal (digitChar d) with
        | some a, some d => some (a * 10 + d)
        | _, _ => none := by
      intro l acc
      rw [List.foldl_append]
      rfl
    show digitsVal ((a :: t) ++ [digitChar d]) = some (v * 10 + d)
    have h1 : digitsVal ((a :: t) ++ [digitChar d]) =
        List.foldl (fun acc c =>
          match acc, charVal c with
          | some a, some d => some (a * 10 + d)
          | _, _ => none) (some 0) ((a :: t) ++ [digitChar d]) := rfl
    have h2 : digitsVal (a :: t) =
        List.foldl (fun acc c =>
          match acc, charVal c with
          | some a, some d => some (a * 10 + d)
          | _, _ => none) (some 0) (a :: t) := rfl
    rw [h1, hfold, ← h2, h, hcv]

theorem digitChar_isDigit (d : Nat) (hd : d < 10) : (digitChar d).isDigit = true := by
  interval_cases d <;> rfl

theorem natStr_digits (n : Nat) : ∀ ch ∈ natStr n, ch.isDigit = true := by
  induction n using Nat.strong_induction_on with
  | _ n ih =>
    intro ch hch
    rw [natStr_unfold] at hch
    split at hch
    · next h =>
      simp at hch
      subst hch
      exact digitChar_isDigit n h
    · next h =>
      rcases List.mem_append.mp hch with h1 | h1
      · exact ih (n / 10) (Nat.div_lt_self (Nat.lt_of_lt_of_le (by decide) (Nat.le_of_not_lt h)) (by decide)) ch h1
      · simp at h1
        subst h1
        exact digitChar_isDigit (n % 10) (Nat.mod_lt _ (by decide))

theorem digitsVal_natStr (n : Nat) : digitsVal (natStr n) = some n := by
  induction n using Nat.strong_induction_on with
  | _ n ih =>
    rw [natStr_unfold]
    split
    · next h =>
      interval_cases n <;> rfl
    · next h =>
      have h10 : 10 ≤ n := Nat.le_of_not_lt h
      have hlt : n / 10 < n := Nat.div_lt_self (Nat.lt_of_lt_of_le (by decide) h10) (by decide)
      have := digitsVal_append_digit (natStr (n / 10)) (n % 10) (Nat.mod_lt _ (by decide))
        (n / 10) (ih (n / 10) hlt)
      rw [this]
      congr 1
      have := Nat.div_add_mod n 10
      omega

theorem natStr_ne_nil (n : Nat) : natStr n ≠ [] := by
  rw [natStr_unfold]
  split
  · simp
  · next h =>
    intro hc
    exact absurd (List.append_eq_nil.mp hc).2 (by simp)

theorem dropWhile_eq_self_of_all {p : Char → Bool} :
    ∀ l : PyStr, (∀ ch ∈ l, ¬ p ch) → l.dropWhile p = l := by
  intro l h
  cases l with
  | nil => rfl
  | cons a t =>
    have : ¬ p a := h a (List.mem_cons_self _ _)
    simp [List.dropWhile, this]

theorem pyStrip_eq_self {s : PyStr} (h : ∀ ch ∈ s, ¬ ch.isWhitespace) :
    pyStrip s = s := by
  rw [pyStrip, dropWhile_eq_self_of_all s h,
    dropWhile_eq_self_of_all s.reverse (fun ch hch => h ch (List.mem_reverse.mp hch)),
    List.reverse_reverse]

theorem pyIntCore_of_head_ne {a : Char} {t : PyStr} (ha : a ≠ '-') (hb : a ≠ '+') :
    pyIntCore (a :: t) = (digitsVal (a :: t)).map (fun n => (n : Int)) := by
  rw [pyIntCore]
  have h1 : ¬ ('-' = a) := fun h => ha h.symm
  have h2 : ¬ ('+' = a) := fun h => hb h.symm
  simp [pyStarts, h1, h2]

theorem not_whitespace_of_digit {ch : Char} (h : ch.isDigit = true) :
    ¬ ch.isWhitespace = true := by
  intro hws
  have h2 : ((ch = ' ' ∨ ch = '\t') ∨ ch = '\x0d') ∨ ch = '\n' := by
    simpa [Char.isWhitespace] using hws
  rcases h2 with ((h2 | h2) | h2) | h2 <;> subst h2 <;> simp [Char.isDigit] at h

/-- Parsing the decimal string the code writes back recovers the number. -/
theorem pyInt_natStr (n : Nat) : pyInt (natStr n) = some (n : Int) := by
  have hdig := natStr_digits n
  have hnws : ∀ ch ∈ natStr n, ¬ ch.isWhitespace :=
    fun ch hch => not_whitespace_of_digit (hdig ch hch)
  rw [pyInt, pyStrip_eq_self hnws]
  rcases hx : natStr n with _ | ⟨a, t⟩
  · exact absurd hx (natStr_ne_nil n)
  · have hamem : a ∈ natStr n := by rw [hx]; exact List.mem_cons_self _ _
    have ha : a ≠ '-' := by
      intro hc; subst hc; simpa [Char.isDigit] using hdig _ hamem
    have hb : a ≠ '+' := by
      intro hc; subst hc; simpa [Char.isDigit] using hdig _ hamem
    rw [pyIntCore_of_head_ne ha hb, ← hx, digitsVal_natStr]
    rfl

-- ---------------------------------------------------------------------------
-- QC error ledger (`extend_qc_error`, `qc_error_count`) and submission rows.
-- ---------------------------------------------------------------------------

/-- Queue status enum of `FileListProps.queue_status`. -/
inductive QueueStatus
  | not_queued
  | ready
  | done
  | skip_status
deriving DecidableEq

/-- One submission row (`FileListProps`); only the fields the embedded
operations read are modelled. -/
structure Row where
  src_blend : PyStr := []
  qc_error : PyStr := []
  queue_status : QueueStatus := QueueStatus.not_queued
deriving DecidableEq

/-- Reusable error names of the source module. -/
def errCrashed : PyStr := pys "crashed"

def errNotLatest : PyStr := pys "Not the latest entry for this email"

def errSkipTag : PyStr := pys "skip"

def errNoBaseMesh : PyStr := pys "No base mesh found"

/-- Tokenisation used by `extend_qc_error`:
`[err for err in qc_error.split(";") if err]` guarded by
`if this_row.qc_error`. -/
def qcTokens (qc : PyStr) : List PyStr :=
  if qc = [] then [] else (splitChar ';' qc).filter (fun t => t ≠ [])

/-- Tag name before any `:count` suffix: `err.split(":")[0]`. -/
def tokHead (t : PyStr) : PyStr := (splitChar ':' t).headD []

/-- Shallow embedding of `extend_qc_error(this_row, apply_error, increment)`.
Returns the updated row and the Python return value (`None` on the
malformed-count path is modelled as `none`).  The global dropdown-cache
update has no effect on the ledger and is not modelled. -/
def extendQcError (row : Row) (applyError : PyStr) (increment : Bool) :
    Row × Option Bool :=
  let currentSource := qcTokens row.qc_error
  let currentHeads := currentSource.map tokHead
  let applyHead := tokHead applyError
  if applyHead ∈ currentHeads then
    if increment = false then (row, some false)
    else
      let index := currentHeads.findIdx (fun p => p = applyHead)
      let match0 := currentSource.getD index []
      let match1 := if pyInB [':'] match0 then match0 else match0 ++ pys ":1"
      let initNumber := (splitChar ':' match1).getLastD []
      match pyInt initNumber with
      | none => (row, none)
      | some num =>
        ({row with qc_error :=
            joinChar ';' (currentSource.set index (applyHead ++ ':' :: intStr (num + 1)))},
          some true)
  else
    if increment then
      ({row with qc_error := joinChar ';' (currentSource ++ [applyHead ++ pys ":1"])},
        some true)
    else
      ({row with qc_error := joinChar ';' (currentSource ++ [applyError])},
        some true)

/-- Count parsed from one ledger token by `qc_error_count`: append `:1` when
no colon is present, then parse the last colon-separated field, 0 on
`ValueError`. -/
def tokCount (err : PyStr) : Int :=
  match pyInt ((splitChar ':'
      (if pyInB [':'] err then err else err ++ pys ":1")).getLastD []) with
  | some num => num
  | none => 0

/-- Scan of `qc_error_count` over the raw `split(";")` tokens: first token
starting with `name` yields its parsed trailing count. -/
def qcCountScan (name : PyStr) : List PyStr → Int
  | [] => 0
  | err :: rest =>
    if pyStarts name err = false then qcCountScan name rest
    else tokCount err

/-- Shallow embedding of `qc_error_count(qc_error, name)`. -/
def qcErrorCount (qc name : PyStr) : Int :=
  if pyInB name qc = false then 0
  else qcCountScan name (splitChar ';' qc)

-- ---------------------------------------------------------------------------
-- Queue advance (`render_next_in_queue` selection scan).
-- ---------------------------------------------------------------------------

/-- Index-scan part of `render_next_in_queue`: walks the file list from the
front and returns the first index not skipped by the crash/not-latest/skip
checks whose status is "ready". -/
def renderNextScan : List Row → Nat → Option Nat
  | [], _ => none
  | row :: rest, i =>
    if qcErrorCount row.qc_error errCrashed > 2 then renderNextScan rest (i + 1)
    else if pyInB errNotLatest row.qc_error then renderNextScan rest (i + 1)
    else if pyInB errSkipTag (pyLower row.qc_error) then renderNextScan rest (i + 1)
    else if row.queue_status = QueueStatus.ready then some i
    else renderNextScan rest (i + 1)

/-- Selection of the next queue item to render (`next_id` in
`render_next_in_queue`); `none` means nothing left, the run ends. -/
def renderNextInQueue (rows : List Row) : Option Nat := renderNextScan rows 0

/-- Eligibility as the claim states it: status "ready", crash count at most
2, no "Not the latest entry for this email" tag, and no case-insensitive
"skip" occurrence in the QC string. -/
def eligibleForRender (row : Row) : Bool :=
  decide (row.queue_status = QueueStatus.ready)
    && !(decide (qcErrorCount row.qc_error errCrashed > 2))
    && !(pyInB errNotLatest row.qc_error)
    && !(pyInB errSkipTag (pyLower row.qc_error))

theorem renderNextScan_cons (r : Row) (rest : List Row) (i : Nat) :
    renderNextScan (r :: rest) i =
      if eligibleForRender r then some i else renderNextScan rest (i + 1) := by
  rw [renderNextScan, eligibleForRender]
  by_cases h1 : qcErrorCount r.qc_error errCrashed > 2
  · simp [h1]
  · by_cases h2 : pyInB errNotLatest r.qc_error
    · simp [h1, h2]
    · by_cases h3 : pyInB errSkipTag (pyLower r.qc_error)
      · simp [h1, h2, h3]
      · by_cases h4 : r.queue_status = QueueStatus.ready
        · simp [h1, h2, h3, h4]
        · simp [h1, h2, h3, h4]

-- ---------------------------------------------------------------------------
-- Lemmas about tokens, heads and scans.
-- ---------------------------------------------------------------------------

theorem pyInB_nil_needle (s : PyStr) : pyInB [] s = true := by
  cases s <;> simp [pyInB, pyStarts]

theorem pyStarts_trans {n m s : PyStr} (h1 : pyStarts n m = true)
    (h2 : pyStarts m s = true) : pyStarts n s = true := by
  induction n generalizing m s with
  | nil => rfl
  | cons a t ih =>
    cases m with
    | nil => simp [pyStarts] at h1
    | cons b m2 =>
      cases s with
      | nil => simp [pyStarts] at h2
      | cons c s2 =>
        simp [pyStarts] at h1 h2 ⊢
        exact ⟨h1.1.trans h2.1, ih h1.2 h2.2⟩

theorem pyInB_of_starts_of_inB {n m s : PyStr} (h1 : pyStarts n m = true)
    (h2 : pyInB m s = true) : pyInB n s = true := by
  induction s with
  | nil =>
    simp only [pyInB] at h2 ⊢
    exact pyStarts_trans h1 h2
  | cons a t ih =>
    simp only [pyInB, Bool.or_eq_true] at h2 ⊢
    rcases h2 with h2 | h2
    · exact Or.inl (pyStarts_trans h1 h2)
    · exact Or.inr (ih h2)

theorem splitChar_headD_starts (c : Char) (s : PyStr) :
    pyStarts ((splitChar c s).headD []) s = true := by
  induction s with
  | nil => rfl
  | cons a rest ih =>
    simp only [splitChar]
    by_cases hac : a = c
    · simp [hac, pyStarts]
    · rw [if_neg hac]
      rcases hsp : splitChar c rest with _ | ⟨hd, tl⟩
      · exact absurd hsp (splitChar_ne_nil c rest)
      · rw [hsp] at ih
        simp only [List.headD_cons] at ih ⊢
        simp [pyStarts, ih]

theorem tokHead_starts (t : PyStr) : pyStarts (tokHead t) t = true :=
  splitChar_headD_starts ':' t

theorem tokHead_of_not_mem {t : PyStr} (h : ':' ∉ t) : tokHead t = t := by
  rw [tokHead, splitChar_of_not_mem h]
  rfl

theorem tokHead_append_colon {x r : PyStr} (h : ':' ∉ x) :
    tokHead (x ++ ':' :: r) = x := by
  rw [tokHead, splitChar_append_cons h]
  rfl

theorem mem_splitChar_pyInB {c : Char} {t s : PyStr} (h : t ∈ splitChar c s) :
    pyInB t s = true := by
  induction s generalizing t with
  | nil =>
    simp [splitChar] at h
    subst h
    exact pyInB_nil_needle []
  | cons a rest ih =>
    simp only [splitChar] at h
    by_cases hac : a = c
    · rw [if_pos hac] at h
      rcases List.mem_cons.mp h with h1 | h1
      · subst h1; exact pyInB_nil_needle _
      · simpa [pyInB] using Or.inr (ih h1)
    · rw [if_neg hac] at h
      rcases hsp : splitChar c rest with _ | ⟨hd, tl⟩
      · exact absurd hsp (splitChar_ne_nil c rest)
      · rw [hsp] at h
        rcases List.mem_cons.mp h with h1 | h1
        · subst h1
          have hhd : pyStarts hd rest = true := by
            have := splitChar_headD_starts c rest
            rw [hsp] at this
            simpa using this
          simp [pyInB, pyStarts, hhd]
        · have : t ∈ splitChar c rest := by rw [hsp]; exact List.mem_cons_of_mem _ h1
          simpa [pyInB] using Or.inr (ih this)

theorem mem_qcTokens_mem_split {qc t : PyStr} (h : t ∈ qcTokens qc) :
    t ∈ splitChar ';' qc := by
  rw [qcTokens] at h
  split at h
  · simp at h
  · exact List.mem_of_mem_filter h

theorem mem_qcTokens_ne_nil {qc t : PyStr} (h : t ∈ qcTokens qc) : t ≠ [] := by
  rw [qcTokens] at h
  split at h
  · simp at h
  · simpa using List.of_mem_filter h

theorem mem_qcTokens_not_mem {qc t : PyStr} (h : t ∈ qcTokens qc) : ';' ∉ t :=
  not_mem_of_mem_splitChar (mem_qcTokens_mem_split h)

/-- Re-tokenising a join of semicolon-free chunks keeps the non-empty chunks. -/
theorem qcTokens_joinChar {l : List PyStr} (h : ∀ t ∈ l, ';' ∉ t) :
    qcTokens (joinChar ';' l) = l.filter (fun t => t ≠ []) := by
  by_cases hj : joinChar ';' l = []
  · rcases joinChar_eq_nil_iff.mp hj with h1 | h1 <;> subst h1 <;> decide
  · have hl : l ≠ [] := by
      intro hc
      subst hc
      exact hj rfl
    rw [qcTokens, if_neg hj, splitChar_joinChar hl h]

theorem findIdx_append_first {p : PyStr → Bool} {l1 : List PyStr} {x : PyStr}
    (l2 : List PyStr) (h1 : ∀ y ∈ l1, p y = false) (h2 : p x = true) :
    List.findIdx p (l1 ++ x :: l2) = l1.length := by
  induction l1 with
  | nil => simp [List.findIdx_cons, h2]
  | cons a t ih =>
    have ha : p a = false := h1 a (List.mem_cons_self _ _)
    simp only [List.cons_append, List.findIdx_cons, ha, cond_false, List.length_cons]
    rw [ih (fun y hy => h1 y (List.mem_cons_of_mem _ hy))]

theorem getD_append_length {α : Type} (l1 : List α) (x : α) (l2 : List α) (d : α) :
    (l1 ++ x :: l2).getD l1.length d = x := by
  induction l1 with
  | nil => rfl
  | cons a t ih => simpa [List.getD] using ih

theorem set_append_length {α : Type} (l1 : List α) (x y : α) (l2 : List α) :
    (l1 ++ x :: l2).set l1.length y = l1 ++ y :: l2 := by
  induction l1 with
  | nil => rfl
  | cons a t ih => simp [List.set, ih]

theorem not_mem_natStr_of_not_digit {c : Char} (h : ¬ c.isDigit = true) (n : Nat) :
    c ∉ natStr n := by
  intro hc
  exact h (natStr_digits n c hc)

theorem row_update_self (r : Row) (x : PyStr) (h : x = r.qc_error) :
    {r with qc_error := x} = r := by
  cases r
  cases h
  rfl

-- ---------------------------------------------------------------------------
-- Behaviour of `extend_qc_error`.
-- ---------------------------------------------------------------------------

theorem extendQcError_head_mem (row : Row) (e : PyStr)
    (h : tokHead e ∈ (qcTokens row.qc_error).map tokHead) :
    extendQcError row e false = (row, some false) := by
  rw [extendQcError]
  simp [h]

theorem extendQcError_append_false (row : Row) (e : PyStr)
    (h : tokHead e ∉ (qcTokens row.qc_error).map tokHead) :
    extendQcError row e false =
      ({row with qc_error := joinChar ';' (qcTokens row.qc_error ++ [e])},
        some true) := by
  rw [extendQcError]
  simp [h]

theorem extendQcError_append_true (row : Row) (e : PyStr)
    (h : tokHead e ∉ (qcTokens row.qc_error).map tokHead) :
    extendQcError row e true =
      ({row with qc_error :=
          joinChar ';' (qcTokens row.qc_error ++ [tokHead e ++ pys ":1"])},
        some true) := by
  rw [extendQcError]
  simp [h]

theorem filter_ne_nil_qcTokens (qc : PyStr) :
    (qcTokens qc).filter (fun t => t ≠ []) = qcTokens qc := by
  apply List.filter_eq_self.mpr
  intro t ht
  simpa using mem_qcTokens_ne_nil ht

/-- Idempotence of the non-incrementable extend for separator-free tags. -/
theorem extendQcError_false_idem (row : Row) (T : PyStr) (hT : ';' ∉ T) :
    (extendQcError (extendQcError row T false).1 T false).1 =
      (extendQcError row T false).1 := by
  by_cases hmem : tokHead T ∈ (qcTokens row.qc_error).map tokHead
  · rw [extendQcError_head_mem row T hmem, extendQcError_head_mem row T hmem]
  · rw [extendQcError_append_false row T hmem]
    have hfree : ∀ t ∈ qcTokens row.qc_error ++ [T], ';' ∉ t := by
      intro t ht
      rcases List.mem_append.mp ht with h1 | h1
      · exact mem_qcTokens_not_mem h1
      · simp at h1
        subst h1
        exact hT
    have htok1 : qcTokens (joinChar ';' (qcTokens row.qc_error ++ [T])) =
        qcTokens row.qc_error ++ List.filter (fun t => t ≠ []) [T] := by
      rw [qcTokens_joinChar hfree, List.filter_append, filter_ne_nil_qcTokens]
    by_cases hTnil : T = []
    · subst hTnil
      have htok2 : qcTokens (joinChar ';' (qcTokens row.qc_error ++ [([] : PyStr)])) =
          qcTokens row.qc_error := by
        rw [htok1]
        simp
      rw [extendQcError_append_false _ _ (by simpa [htok2] using hmem)]
      exact row_update_self _ _ (by simp [htok2])
    · have htok2 : qcTokens (joinChar ';' (qcTokens row.qc_error ++ [T])) =
          qcTokens row.qc_error ++ [T] := by
        rw [htok1]
        simp [hTnil]
      have hmem2 : tokHead T ∈
          (qcTokens (joinChar ';' (qcTokens row.qc_error ++ [T]))).map tokHead := by
        rw [htok2]
        simp
      rw [extendQcError_head_mem _ _ hmem2]

/-- Iterated incrementable extend, as used for crash counting. -/
def extendNTimes (row : Row) (e : PyStr) : Nat → Row
  | 0 => row
  | n + 1 => (extendQcError (extendNTimes row e n) e true).1

theorem semi_not_mem_canonical {T : PyStr} (hT1 : ';' ∉ T) (k : Nat) :
    ';' ∉ T ++ ':' :: natStr k := by
  intro hc
  rcases List.mem_append.mp hc with h1 | h1
  · exact hT1 h1
  · rcases List.mem_cons.mp h1 with h1 | h1
    · exact absurd h1 (by decide)
    · exact not_mem_natStr_of_not_digit (by decide) k h1

theorem canonical_ne_nil (T : PyStr) (k : Nat) : T ++ ':' :: natStr k ≠ [] := by
  intro hc
  exact absurd (List.append_eq_nil.mp hc).2 (by simp)

/-- Incrementing a ledger whose last token is the canonical `T:k` token. -/
theorem extendQcError_increment_canonical (row : Row) (T : PyStr)
    (src0 : List PyStr) (k : Nat)
    (hT2 : ':' ∉ T) (hT1 : ';' ∉ T)
    (hsrc_nil : ∀ t ∈ src0, t ≠ []) (hsrc_semi : ∀ t ∈ src0, ';' ∉ t)
    (hheads : ∀ t ∈ src0, tokHead t ≠ T)
    (hqc : row.qc_error = joinChar ';' (src0 ++ [T ++ ':' :: natStr k])) :
    extendQcError row T true =
      ({row with qc_error := joinChar ';' (src0 ++ [T ++ ':' :: natStr (k + 1)])},
        some true) := by
  have htokens : qcTokens row.qc_error = src0 ++ [T ++ ':' :: natStr k] := by
    rw [hqc, qcTokens_joinChar (by
      intro t ht
      rcases List.mem_append.mp ht with h1 | h1
      · exact hsrc_semi t h1
      · simp at h1
        subst h1
        exact semi_not_mem_canonical hT1 k)]
    apply List.filter_eq_self.mpr
    intro t ht
    rcases List.mem_append.mp ht with h1 | h1
    · simpa using hsrc_nil t h1
    · simp at h1
      subst h1
      simpa using canonical_ne_nil T k
  have hmaps : (src0 ++ [T ++ ':' :: natStr k]).map tokHead =
      src0.map tokHead ++ [T] := by
    simp [tokHead_append_colon hT2]
  have hheadmem : tokHead T ∈ (qcTokens row.qc_error).map tokHead := by
    rw [htokens, hmaps, tokHead_of_not_mem hT2]
    simp
  have hfind : List.findIdx (fun p => p = tokHead T)
      ((qcTokens row.qc_error).map tokHead) = src0.length := by
    rw [htokens, hmaps, tokHead_of_not_mem hT2]
    have := @findIdx_append_first (fun p => decide (p = T))
      (src0.map tokHead) T ([])
      (by
        intro y hy
        rcases List.mem_map.mp hy with ⟨t, ht, rfl⟩
        simpa using hheads t ht)
      (by simp)
    simpa using this
  have hgetD : (qcTokens row.qc_error).getD src0.length [] = T ++ ':' :: natStr k := by
    rw [htokens]
    exact getD_append_length src0 _ [] []
  have hcolon : pyInB [':'] (T ++ ':' :: natStr k) = true :=
    pyInB_append_right T (pyInB_of_starts (by simp [pyStarts]))
  have hsplit : splitChar ':' (T ++ ':' :: natStr k) = [T, natStr k] := by
    rw [splitChar_append_cons hT2,
      splitChar_of_not_mem (not_mem_natStr_of_not_digit (by decide) k)]
  have hlast : (splitChar ':' (T ++ ':' :: natStr k)).getLastD [] = natStr k := by
    rw [hsplit]
    rfl
  have hparse : pyInt ((splitChar ':' (T ++ ':' :: natStr k)).getLastD []) =
      some (k : Int) := by
    rw [hlast]
    exact pyInt_natStr k
  have hintstr : intStr ((k : Int) + 1) = natStr (k + 1) := by
    rw [intStr, if_neg (by omega)]
    have habs : ((k : Int) + 1).natAbs = k + 1 := by omega
    rw [habs]
  have hset : (qcTokens row.qc_error).set src0.length
      (tokHead T ++ ':' :: intStr ((k : Int) + 1)) =
      src0 ++ [T ++ ':' :: natStr (k + 1)] := by
    rw [htokens, tokHead_of_not_mem hT2, hintstr]
    exact set_append_length src0 _ _ []
  rw [extendQcError]
  simp only [hheadmem, if_true, Bool.true_eq_false, if_neg (by simp : ¬ (true = false)),
    hfind, hgetD, hcolon, if_pos rfl, hparse, hset]
  simp [hgetD, hcolon, hparse, hset, hfind]

theorem natStr_one : natStr 1 = ['1'] := by decide

/-- After `N ≥ 1` incrementable extends of a fresh separator-free tag the
ledger is the old tokens plus a canonical `T:N` token. -/
theorem extendNTimes_canonical (row : Row) (T : PyStr) (N : Nat)
    (hT2 : ':' ∉ T) (hT1 : ';' ∉ T)
    (hstart : ∀ t ∈ splitChar ';' row.qc_error, pyStarts T t = false)
    (hN : 1 ≤ N) :
    (extendNTimes row T N).qc_error =
      joinChar ';' (qcTokens row.qc_error ++ [T ++ ':' :: natStr N]) ∧
    (extendNTimes row T N).src_blend = row.src_blend ∧
    (extendNTimes row T N).queue_status = row.queue_status := by
  have hheads : ∀ t ∈ qcTokens row.qc_error, tokHead t ≠ T := by
    intro t ht hc
    have h1 : pyStarts T t = true := by
      rw [← hc]
      exact tokHead_starts t
    rw [hstart t (mem_qcTokens_mem_split ht)] at h1
    exact absurd h1 (by simp)
  induction N with
  | zero => omega
  | succ N0 ihN =>
    rcases Nat.eq_or_lt_of_le hN with h1 | h1
    · have hN0 : N0 = 0 := by omega
      subst hN0
      have hnotmem : tokHead T ∉ (qcTokens row.qc_error).map tokHead := by
        intro hc
        rcases List.mem_map.mp hc with ⟨t, ht, hteq⟩
        exact hheads t ht (by rw [hteq, tokHead_of_not_mem hT2])
      refine ⟨?_, ?_, ?_⟩
      · show (extendQcError row T true).1.qc_error = _
        rw [extendQcError_append_true row T hnotmem]
        simp only
        rw [tokHead_of_not_mem hT2, natStr_one]
        rfl
      · show (extendQcError row T true).1.src_blend = _
        rw [extendQcError_append_true row T hnotmem]
      · show (extendQcError row T true).1.queue_status = _
        rw [extendQcError_append_true row T hnotmem]
    · have hN0 : 1 ≤ N0 := by omega
      rcases ihN hN0 with ⟨hqc, hsrc, hstat⟩
      have hstep := extendQcError_increment_canonical (extendNTimes row T N0) T
        (qcTokens row.qc_error) N0 hT2 hT1
        (fun t ht => mem_qcTokens_ne_nil ht)
        (fun t ht => mem_qcTokens_not_mem ht)
        hheads hqc
      refine ⟨?_, ?_, ?_⟩
      · show (extendQcError (extendNTimes row T N0) T true).1.qc_error = _
        rw [hstep]
      · show (extendQcError (extendNTimes row T N0) T true).1.src_blend = _
        rw [hstep]
        exact hsrc
      · show (extendQcError (extendNTimes row T N0) T true).1.queue_status = _
        rw [hstep]
        exact hstat

/-- Scan result when a first starts-with match exists. -/
theorem qcCountScan_append (N : PyStr) (l1 : List PyStr) (err : PyStr)
    (l2 : List PyStr) (hskip : ∀ t ∈ l1, pyStarts N t = false)
    (hs : pyStarts N err = true) :
    qcCountScan N (l1 ++ err :: l2) = tokCount err := by
  induction l1 with
  | nil => simp [qcCountScan, hs]
  | cons a t ih =>
    have ha : pyStarts N a = false := hskip a (List.mem_cons_self _ _)
    simp only [List.cons_append, qcCountScan, ha, if_pos rfl]
    exact ih (fun y hy => hskip y (List.mem_cons_of_mem _ hy))

/-- Count of the canonical `T:k` token for separator-free `T`. -/
theorem tokCount_canonical (T : PyStr) (k : Nat) (hT2 : ':' ∉ T) :
    tokCount (T ++ ':' :: natStr k) = (k : Int) := by
  have hcolon : pyInB [':'] (T ++ ':' :: natStr k) = true :=
    pyInB_append_right T (pyInB_of_starts (by simp [pyStarts]))
  have hsplit : splitChar ':' (T ++ ':' :: natStr k) = [T, natStr k] := by
    rw [splitChar_append_cons hT2,
      splitChar_of_not_mem (not_mem_natStr_of_not_digit (by decide) k)]
  rw [tokCount, if_pos hcolon, hsplit]
  show (match pyInt (natStr k) with
    | some num => num
    | none => 0) = (k : Int)
  rw [pyInt_natStr k]

theorem qcErrorCount_after_extendNTimes (row : Row) (T : PyStr) (N : Nat)
    (hT2 : ':' ∉ T) (hT1 : ';' ∉ T)
    (hstart : ∀ t ∈ splitChar ';' row.qc_error, pyStarts T t = false)
    (hN : 1 ≤ N) :
    qcErrorCount (extendNTimes row T N).qc_error T = (N : Int) := by
  rcases extendNTimes_canonical row T N hT2 hT1 hstart hN with ⟨hqc, -, -⟩
  have hsemi : ∀ t ∈ qcTokens row.qc_error ++ [T ++ ':' :: natStr N], ';' ∉ t := by
    intro t ht
    rcases List.mem_append.mp ht with h1 | h1
    · exact mem_qcTokens_not_mem h1
    · simp at h1
      subst h1
      exact semi_not_mem_canonical hT1 N
  have hne : qcTokens row.qc_error ++ [T ++ ':' :: natStr N] ≠ [] := by simp
  have hstarts_tok : pyStarts T (T ++ ':' :: natStr N) = true :=
    pyStarts_self_append T _
  have hguard : pyInB T (extendNTimes row T N).qc_error = true := by
    rw [hqc]
    exact pyInB_joinChar (by simp) (pyInB_of_starts hstarts_tok)
  have hresplit : splitChar ';' (extendNTimes row T N).qc_error =
      qcTokens row.qc_error ++ [T ++ ':' :: natStr N] := by
    rw [hqc]
    exact splitChar_joinChar hne hsemi
  rw [qcErrorCount, if_neg (by simp [hguard]), hresplit,
    qcCountScan_append T (qcTokens row.qc_error) _ []
      (fun t ht => hstart t (mem_qcTokens_mem_split ht)) hstarts_tok,
    tokCount_canonical T N hT2]

-- ---------------------------------------------------------------------------
-- Claims C5, C6, C10 (ledger algebra).
-- ---------------------------------------------------------------------------

/-- Claim C5 counterexample: for the tag name "a;b", which contains the
semicolon separator, calling extend twice with incrementable=false changes
the ledger again: "a;b" becomes "a;b;a;b".  So extend(row, T, false) is not
idempotent for every tag name T, as the claim states. -/
theorem claim_C5_counterexample :
    (extendQcError
        (extendQcError (⟨[], [], QueueStatus.not_queued⟩ : Row) (pys "a;b") false).1
        (pys "a;b") false).1.qc_error ≠
      (extendQcError (⟨[], [], QueueStatus.not_queued⟩ : Row) (pys "a;b") false).1.qc_error := by
  decide

/-- Claim C5 (amended): whenever a tag whose name part equals T's name part
is already recorded, extend(row, T, incrementable=false) leaves the row
unchanged and returns false; and for every tag name T not containing the
";" separator, calling extend(row, T, incrementable=false) twice yields the
same ledger row as calling it once. -/
theorem claim_C5_extend_false_idempotent :
    (∀ (row : Row) (T : PyStr),
        tokHead T ∈ (qcTokens row.qc_error).map tokHead →
        extendQcError row T false = (row, some false)) ∧
    (∀ (row : Row) (T : PyStr), ';' ∉ T →
        (extendQcError (extendQcError row T false).1 T false).1 =
          (extendQcError row T false).1) :=
  ⟨extendQcError_head_mem, extendQcError_false_idem⟩

/-- Claim C5 witness: the amended theorem applied at the concrete row with
ledger "flag" and the fresh separator-free tag "new". -/
theorem claim_C5_witness :
    extendQcError (⟨[], pys "flag", QueueStatus.ready⟩ : Row) (pys "flag") false =
      ((⟨[], pys "flag", QueueStatus.ready⟩ : Row), some false) ∧
    (extendQcError
        (extendQcError (⟨[], pys "flag", QueueStatus.ready⟩ : Row) (pys "new") false).1
        (pys "new") false).1 =
      (extendQcError (⟨[], pys "flag", QueueStatus.ready⟩ : Row) (pys "new") false).1 := by
  constructor
  · exact claim_C5_extend_false_idempotent.1 _ _ (by decide)
  · exact claim_C5_extend_false_idempotent.2 _ _ (by decide)

/-- Claim C6 counterexample: three concrete failures of
"count(row, T) == N after N incrementable extends from a row with no tag of
prefix T".  First, with ledger "crashed:5" and T = "crash" (prefix not
recorded), one increment yields count 5, because the count lookup matches
"crashed:5" by starts-with.  Second, with an empty ledger and T = "x:5",
one increment records "x:1" but the lookup for "x:5" returns 0.  Third,
with an empty ledger and T = "a;b", one increment records "a;b:1" but the
re-split tokens "a", "b:1" never match, so the count is 0. -/
theorem claim_C6_counterexample :
    qcErrorCount (extendNTimes (⟨[], pys "crashed:5", QueueStatus.ready⟩ : Row)
        (pys "crash") 1).qc_error (pys "crash") = 5 ∧
    qcErrorCount (extendNTimes (⟨[], [], QueueStatus.ready⟩ : Row)
        (pys "x:5") 1).qc_error (pys "x:5") = 0 ∧
    qcErrorCount (extendNTimes (⟨[], [], QueueStatus.ready⟩ : Row)
        (pys "a;b") 1).qc_error (pys "a;b") = 0 := by
  decide

/-- Claim C6 (amended): for every submission row none of whose raw ledger
tokens starts with T, and every tag name T containing neither ":" nor ";",
calling the ledger extend operation with incrementable=true N times
(N >= 1) results in count(row, T) == N. -/
theorem claim_C6_increment_count (row : Row) (T : PyStr) (N : Nat)
    (hT2 : ':' ∉ T) (hT1 : ';' ∉ T)
    (hstart : ∀ t ∈ splitChar ';' row.qc_error, pyStarts T t = false)
    (hN : 1 ≤ N) :
    qcErrorCount (extendNTimes row T N).qc_error T = (N : Int) :=
  qcErrorCount_after_extendNTimes row T N hT2 hT1 hstart hN

/-- Claim C6 witness: three increments of the fresh tag "crashed" on a row
carrying an unrelated tag give count 3. -/
theorem claim_C6_witness :
    qcErrorCount (extendNTimes (⟨[], pys "other err", QueueStatus.ready⟩ : Row)
        (pys "crashed") 3).qc_error (pys "crashed") = 3 := by
  have h := claim_C6_increment_count (⟨[], pys "other err", QueueStatus.ready⟩ : Row)
    (pys "crashed") 3 (by decide) (by decide) (by decide) (by decide)
  simpa using h

/-- Claim C10: the per-tag count lookup matches ledger tokens by a
starts-with test on the queried name: for every ledger string, if the first
semicolon token that starts with the queried name N is `err`, the lookup
returns `err`'s parsed trailing count (its tag name may be strictly longer
than N, e.g. querying "crash" against "crashed:2" returns 2, not 0). -/
theorem claim_C10_count_matches_by_startswith (qc N err : PyStr)
    (l1 l2 : List PyStr)
    (hsplit : splitChar ';' qc = l1 ++ err :: l2)
    (hskip : ∀ t ∈ l1, pyStarts N t = false)
    (hstart : pyStarts N err = true) :
    qcErrorCount qc N = tokCount err := by
  have herr : err ∈ splitChar ';' qc := by
    rw [hsplit]
    exact List.mem_append.mpr (Or.inr (List.mem_cons_self _ _))
  have hguard : pyInB N qc = true :=
    pyInB_of_starts_of_inB hstart (mem_splitChar_pyInB herr)
  rw [qcErrorCount, if_neg (by simp [hguard]), hsplit]
  exact qcCountScan_append N l1 err l2 hskip hstart

/-- Claim C10 witness: querying "crash" against the ledger "crashed:2"
returns 2, the count of the strictly longer tag "crashed". -/
theorem claim_C10_witness :
    qcErrorCount (pys "crashed:2") (pys "crash") = 2 := by
  have h := claim_C10_count_matches_by_startswith (pys "crashed:2") (pys "crash")
    (pys "crashed:2") [] [] (by decide) (by decide) (by decide)
  rw [h]
  decide

-- ---------------------------------------------------------------------------
-- Claim C3 (queue advance).
-- ---------------------------------------------------------------------------

theorem renderNextScan_shift (rows : List Row) : ∀ i : Nat,
    renderNextScan rows i = (renderNextInQueue rows).map (fun k => i + k) := by
  induction rows with
  | nil => intro i; rfl
  | cons r rest ih =>
    intro i
    rw [renderNextScan_cons, renderNextInQueue, renderNextScan_cons]
    by_cases h : eligibleForRender r
    · simp [h]
    · rw [if_neg h, if_neg h, ih (i + 1), ih 1]
      cases renderNextInQueue rest with
      | none => rfl
      | some k =>
        show some (i + 1 + k) = some (i + (1 + k))
        congr 1
        omega

theorem renderNextInQueue_cons (r : Row) (rest : List Row) :
    renderNextInQueue (r :: rest) =
      if eligibleForRender r then some 0
      else (renderNextInQueue rest).map (fun k => 1 + k) := by
  rw [renderNextInQueue, renderNextScan_cons]
  by_cases h : eligibleForRender r
  · rw [if_pos h, if_pos h]
  · rw [if_neg h, if_neg h, renderNextScan_shift rest 1]

/-- Claim C3: the queue-advance scan of render_next_in_queue selects the
first index in list order whose row has status "ready" and is not
disqualified by a crash count above 2, the "Not the latest entry for this
email" tag, or a case-insensitive "skip" occurrence in the QC string; when
no row qualifies it selects none and the run ends. -/
theorem claim_C3_next_renderable (rows : List Row) :
    (∀ i : Nat, renderNextInQueue rows = some i ↔
      ((∃ r, rows.get? i = some r ∧ eligibleForRender r = true) ∧
        ∀ j r, j < i → rows.get? j = some r → eligibleForRender r = false)) ∧
    (renderNextInQueue rows = none ↔ ∀ r ∈ rows, eligibleForRender r = false) := by
  induction rows with
  | nil =>
    constructor
    · intro i
      constructor
      · intro h
        exact absurd h (by rw [renderNextInQueue, renderNextScan]; simp)
      · intro hc
        rcases hc with ⟨⟨r, hr, _⟩, _⟩
        exact Option.noConfusion hr
    · simp [renderNextInQueue, renderNextScan]
  | cons r rest ih =>
    rw [renderNextInQueue_cons]
    by_cases h : eligibleForRender r = true
    · rw [if_pos h]
      constructor
      · intro i
        cases i with
        | zero =>
          constructor
          · intro _
            refine ⟨⟨r, rfl, h⟩, ?_⟩
            intro j r1 hj _
            omega
          · intro _
            rfl
        | succ i2 =>
          constructor
          · intro hc
            exact absurd hc (by simp)
          · intro hc
            rcases hc with ⟨-, hall⟩
            have h0 := hall 0 r (by omega) rfl
            rw [h] at h0
            exact absurd h0 (by simp)
      · constructor
        · intro hc
          exact absurd hc (by simp)
        · intro hall
          have h0 := hall r (List.mem_cons_self _ _)
          rw [h] at h0
          exact absurd h0 (by simp)
    · rw [if_neg h]
      have hfalse : eligibleForRender r = false := by
        rcases Bool.eq_false_or_eq_true (eligibleForRender r) with h1 | h1
        · exact absurd h1 h
        · exact h1
      constructor
      · intro i
        cases i with
        | zero =>
          constructor
          · intro hc
            cases hq : renderNextInQueue rest with
            | none =>
              rw [hq] at hc
              exact Option.noConfusion hc
            | some k =>
              rw [hq] at hc
              have hk : 1 + k = 0 := Option.some.inj hc
              omega
          · intro hc
            rcases hc with ⟨⟨r0, hr0, helig⟩, -⟩
            have hrr : r = r0 := Option.some.inj hr0
            rw [← hrr, hfalse] at helig
            exact absurd helig (by simp)
        | succ i2 =>
          have hmap : ((renderNextInQueue rest).map (fun k => 1 + k) = some (i2 + 1)) ↔
              renderNextInQueue rest = some i2 := by
            cases renderNextInQueue rest with
            | none =>
              constructor
              · intro hc
                exact Option.noConfusion hc
              · intro hc
                exact Option.noConfusion hc
            | some k =>
              constructor
              · intro hc
                have h1 : 1 + k = i2 + 1 := Option.some.inj hc
                have h2 : k = i2 := by omega
                rw [h2]
              · intro hc
                have h2 : k = i2 := Option.some.inj hc
                show some (1 + k) = some (i2 + 1)
                rw [h2]
                congr 1
                omega
          rw [hmap, (ih.1 i2)]
          constructor
          · intro hc
            rcases hc with ⟨⟨r0, hr0, helig⟩, hall⟩
            refine ⟨⟨r0, by simpa using hr0, helig⟩, ?_⟩
            intro j r1 hj hr1
            cases j with
            | zero =>
              have hrr : r = r1 := Option.some.inj hr1
              rw [← hrr]
              exact hfalse
            | succ j2 =>
              exact hall j2 r1 (by omega) (by simpa using hr1)
          · intro hc
            rcases hc with ⟨⟨r0, hr0, helig⟩, hall⟩
            refine ⟨⟨r0, by simpa using hr0, helig⟩, ?_⟩
            intro j r1 hj hr1
            exact hall (j + 1) r1 (by omega) (by simpa using hr1)
      · have hmapn : ((renderNextInQueue rest).map (fun k => 1 + k) = none) ↔
            renderNextInQueue rest = none := by
          cases renderNextInQueue rest <;> simp
        rw [hmapn, ih.2]
        constructor
        · intro hall r0 hr0
          rcases List.mem_cons.mp hr0 with h1 | h1
          · rw [h1]
            exact hfalse
          · exact hall r0 h1
        · intro hall r0 hr0
          exact hall r0 (List.mem_cons_of_mem _ hr0)

/-- Claim C3 witness: with a "ready" row whose ledger reads "crashed:3"
ahead of a clean "ready" row, the scan skips the crashed row and selects
index 1; derived from the characterisation theorem. -/
theorem claim_C3_witness :
    renderNextInQueue [⟨pys "a.blend", pys "crashed:3", QueueStatus.ready⟩,
      ⟨pys "b.blend", [], QueueStatus.ready⟩] = some 1 := by
  apply ((claim_C3_next_renderable
    [⟨pys "a.blend", pys "crashed:3", QueueStatus.ready⟩,
      ⟨pys "b.blend", [], QueueStatus.ready⟩]).1 1).mpr
  constructor
  · exact ⟨⟨pys "b.blend", [], QueueStatus.ready⟩, rfl, by decide⟩
  · intro j r hj hr
    have hj0 : j = 0 := by omega
    subst hj0
    have : (⟨pys "a.blend", pys "crashed:3", QueueStatus.ready⟩ : Row) = r :=
      Option.some.inj hr
    rw [← this]
    decide

-- ---------------------------------------------------------------------------
-- Claim C4 (crash-marker protocol).
-- ---------------------------------------------------------------------------

/-- State touched by the crash-marker protocol: the marker file content
(`none` when absent), the file list, and the active index. -/
structure PipelineState where
  crashMarker : Option PyStr
  file_list : List Row
  file_list_index : Nat
deriving DecidableEq

/-- Loop body of `load_crash_cache`: apply the incrementing "crashed" tag to
the first row whose `src_blend` equals the recorded name, then stop. -/
def applyCrashTag : List Row → PyStr → List Row
  | [], _ => []
  | row :: rest, name =>
    if row.src_blend = name then (extendQcError row errCrashed true).1 :: rest
    else row :: applyCrashTag rest name

/-- Shallow embedding of `load_crash_cache`: if the marker file exists, read
its name, delete the marker, and tag the named row. -/
def loadCrashCache (s : PipelineState) : PipelineState :=
  match s.crashMarker with
  | none => s
  | some crashedBlend =>
    { s with crashMarker := none,
             file_list := applyCrashTag s.file_list crashedBlend }

/-- Shallow embedding of `save_blend_to_crash_cache`: process any stale
marker first, then write the active row's blend name to the marker.  (An
out-of-range active index raises IndexError in the source; it is modelled
as leaving the marker cleared.) -/
def saveBlendToCrashCache (s : PipelineState) : PipelineState :=
  let s2 := loadCrashCache s
  match s2.file_list.get? s2.file_list_index with
  | some row => { s2 with crashMarker := some row.src_blend }
  | none => s2

/-- Shallow embedding of `clear_blend_crash_cach`. -/
def clearBlendCrashCache (s : PipelineState) : PipelineState :=
  { s with crashMarker := none }

/-- Shallow embedding of `update_folderset_list_index`: persist the marker,
run the risky per-item work (`load_active_row`, abstracted as `loadWork`),
then delete the marker. -/
def updateFoldersetListIndex (loadWork : PipelineState → PipelineState)
    (s : PipelineState) : PipelineState :=
  clearBlendCrashCache (loadWork (saveBlendToCrashCache s))

theorem applyCrashTag_get (rows : List Row) (name : PyStr) : ∀ (i : Nat) (r : Row),
    rows.get? i = some r → r.src_blend = name →
    (∀ j r2, j < i → rows.get? j = some r2 → r2.src_blend ≠ name) →
    (applyCrashTag rows name).get? i = some (extendQcError r errCrashed true).1 := by
  induction rows with
  | nil =>
    intro i r hi
    exact absurd hi (by simp)
  | cons r0 rest ih =>
    intro i r hi hr hfirst
    cases i with
    | zero =>
      have : r0 = r := Option.some.inj hi
      subst this
      rw [applyCrashTag, if_pos hr]
      rfl
    | succ i2 =>
      have h0 : r0.src_blend ≠ name := hfirst 0 r0 (by omega) rfl
      rw [applyCrashTag, if_neg h0]
      show (applyCrashTag rest name).get? i2 = _
      exact ih i2 r (by simpa using hi) hr
        (fun j r2 hj hr2 => hfirst (j + 1) r2 (by omega) (by simpa using hr2))

/-- Claim C4: if the crash marker names a listed submission when per-item
processing begins, then after crash-cache handling that submission carries
the tag "crashed:1" (with count 1, when no crashed-tag was recorded
before) and the marker is gone; and across update_folderset_list_index the
marker carrying the active row's name is written before the risky per-item
work runs and is deleted after it completes. -/
theorem claim_C4_crash_marker (s : PipelineState) (name : PyStr) (i : Nat) (r : Row)
    (hm : s.crashMarker = some name)
    (hi : s.file_list.get? i = some r)
    (hname : r.src_blend = name)
    (hfirst : ∀ j r2, j < i → s.file_list.get? j = some r2 → r2.src_blend ≠ name)
    (hclean : ∀ t ∈ splitChar ';' r.qc_error, pyStarts errCrashed t = false) :
    (loadCrashCache s).crashMarker = none ∧
    (∃ r2, (loadCrashCache s).file_list.get? i = some r2 ∧
      qcErrorCount r2.qc_error errCrashed = 1 ∧
      pys "crashed:1" ∈ splitChar ';' r2.qc_error) ∧
    (∀ (loadWork : PipelineState → PipelineState) (act : Row),
      (loadCrashCache s).file_list.get? s.file_list_index = some act →
      (saveBlendToCrashCache s).crashMarker = some act.src_blend ∧
      (updateFoldersetListIndex loadWork s).crashMarker = none) := by
  have hload : loadCrashCache s =
      { s with crashMarker := none,
               file_list := applyCrashTag s.file_list name } := by
    rw [loadCrashCache, hm]
  refine ⟨by rw [hload], ?_, ?_⟩
  · refine ⟨(extendQcError r errCrashed true).1, ?_, ?_, ?_⟩
    · rw [hload]
      exact applyCrashTag_get s.file_list name i r hi hname hfirst
    · have h1 : (extendQcError r errCrashed true).1 = extendNTimes r errCrashed 1 := rfl
      rw [h1]
      have := qcErrorCount_after_extendNTimes r errCrashed 1 (by decide) (by decide)
        hclean (by omega)
      simpa using this
    · have h1 : (extendQcError r errCrashed true).1 = extendNTimes r errCrashed 1 := rfl
      rw [h1]
      rcases extendNTimes_canonical r errCrashed 1 (by decide) (by decide) hclean
        (by omega) with ⟨hqc, -, -⟩
      rw [hqc]
      have hsemi : ∀ t ∈ qcTokens r.qc_error ++ [errCrashed ++ ':' :: natStr 1], ';' ∉ t := by
        intro t ht
        rcases List.mem_append.mp ht with h1 | h1
        · exact mem_qcTokens_not_mem h1
        · simp at h1
          subst h1
          exact semi_not_mem_canonical (by decide) 1
      rw [splitChar_joinChar (by simp) hsemi]
      have : pys "crashed:1" = errCrashed ++ ':' :: natStr 1 := by decide
      rw [this]
      exact List.mem_append.mpr (Or.inr (List.mem_cons_self _ _))
  · intro loadWork act hact
    constructor
    · have hidx : (loadCrashCache s).file_list_index = s.file_list_index := by
        rw [hload]
      rw [saveBlendToCrashCache]
      simp only [hidx, hact]
    · rfl

/-- Claim C4 witness: marker "sample.blend" with a single clean matching
row; after crash-cache handling the row reads "crashed:1" and the marker is
gone, and the save/work/clear cycle writes then deletes the marker. -/
theorem claim_C4_witness :
    (loadCrashCache ⟨some (pys "sample.blend"),
        [⟨pys "sample.blend", [], QueueStatus.ready⟩], 0⟩).crashMarker = none ∧
    (∃ r2, (loadCrashCache ⟨some (pys "sample.blend"),
        [⟨pys "sample.blend", [], QueueStatus.ready⟩], 0⟩).file_list.get? 0 = some r2 ∧
      qcErrorCount r2.qc_error errCrashed = 1 ∧
      pys "crashed:1" ∈ splitChar ';' r2.qc_error) ∧
    (∀ (loadWork : PipelineState → PipelineState) (act : Row),
      (loadCrashCache ⟨some (pys "sample.blend"),
          [⟨pys "sample.blend", [], QueueStatus.ready⟩], 0⟩).file_list.get? 0 = some act →
      (saveBlendToCrashCache ⟨some (pys "sample.blend"),
          [⟨pys "sample.blend", [], QueueStatus.ready⟩], 0⟩).crashMarker = some act.src_blend ∧
      (updateFoldersetListIndex loadWork ⟨some (pys "sample.blend"),
          [⟨pys "sample.blend", [], QueueStatus.ready⟩], 0⟩).crashMarker = none) :=
  claim_C4_crash_marker
    ⟨some (pys "sample.blend"), [⟨pys "sample.blend", [], QueueStatus.ready⟩], 0⟩
    (pys "sample.blend") 0 ⟨pys "sample.blend", [], QueueStatus.ready⟩
    rfl rfl rfl (fun j r2 hj _ => absurd hj (by omega)) (by decide)

-- ---------------------------------------------------------------------------
-- Claim C7 (render-output existence check).
-- ---------------------------------------------------------------------------

/-- Model of `os.path.join` for the relative path fragments the add-on
passes (an absolute second argument, which would discard the first, never
occurs here). -/
def pyPathJoin (a b : PyStr) : PyStr :=
  if a = [] then b
  else if a.getLast? = some '/' then a ++ b
  else a ++ '/' :: b

/-- Output file name part of `_get_generic_render_path`: drop a
case-insensitive ".blend" suffix, drop one trailing dot, append ".png".
The source indexes `base[-1]`, so an empty base (src_name "" or ".blend")
raises IndexError, modelled as `none`. -/
def renderFileName (srcName : PyStr) : Option PyStr :=
  let base := if pyEnds (pyLower srcName) (pys ".blend")
    then srcName.take (srcName.length - 6) else srcName
  match base.getLast? with
  | none => none
  | some c =>
    some ((if c = '.' then base.dropLast else base) ++ pys ".png")

/-- Shallow embedding of `_get_generic_render_path(context, src_name,
subpath)`; `bpy.path.abspath` is modelled as the identity on the already
absolute config folder. -/
def genericRenderPath (configFolder subpath srcName : PyStr) : Option PyStr :=
  (renderFileName srcName).map
    (fun fn => pyPathJoin (pyPathJoin configFolder subpath) fn)

/-- Shallow embedding of `get_large_render_path`. -/
def getLargeRenderPath (configFolder srcName : PyStr) : Option PyStr :=
  genericRenderPath configFolder (pys "render_full") srcName

/-- Shallow embedding of `get_small_render_path`. -/
def getSmallRenderPath (configFolder srcName : PyStr) : Option PyStr :=
  genericRenderPath configFolder (pys "render_small") srcName

/-- Shallow embedding of `renders_exist_for_row`: consult the existence
cache when it is populated, the filesystem (modelled as the list of
existing paths) otherwise; true only when both render paths are present. -/
def rendersExistForRow (cache fsFiles : List PyStr) (configFolder srcName : PyStr) :
    Option Bool :=
  match getLargeRenderPath configFolder srcName,
      getSmallRenderPath configFolder srcName with
  | some lgPath, some smPath =>
    if cache ≠ [] then some (decide (lgPath ∈ cache) && decide (smPath ∈ cache))
    else some (decide (lgPath ∈ fsFiles) && decide (smPath ∈ fsFiles))
  | _, _ => none

/-- Claim C7: the render-exists check returns true iff both the
full-resolution and the thumbnail render paths derived from the identity
are present, in the existence cache when it is populated and on the
filesystem otherwise; and with either of the two paths absent the check
returns false. -/
theorem claim_C7_renders_exist (cache fsFiles : List PyStr)
    (configFolder srcName lgPath smPath : PyStr)
    (hlg : getLargeRenderPath configFolder srcName = some lgPath)
    (hsm : getSmallRenderPath configFolder srcName = some smPath) :
    (cache = [] →
      ((rendersExistForRow cache fsFiles configFolder srcName = some true ↔
        lgPath ∈ fsFiles ∧ smPath ∈ fsFiles) ∧
      (lgPath ∉ fsFiles →
        rendersExistForRow cache fsFiles configFolder srcName = some false) ∧
      (smPath ∉ fsFiles →
        rendersExistForRow cache fsFiles configFolder srcName = some false))) ∧
    (cache ≠ [] →
      ((rendersExistForRow cache fsFiles configFolder srcName = some true ↔
        lgPath ∈ cache ∧ smPath ∈ cache) ∧
      (lgPath ∉ cache →
        rendersExistForRow cache fsFiles configFolder srcName = some false) ∧
      (smPath ∉ cache →
        rendersExistForRow cache fsFiles configFolder srcName = some false))) := by
  have hred : rendersExistForRow cache fsFiles configFolder srcName =
      if cache ≠ [] then some (decide (lgPath ∈ cache) && decide (smPath ∈ cache))
      else some (decide (lgPath ∈ fsFiles) && decide (smPath ∈ fsFiles)) := by
    rw [rendersExistForRow, hlg, hsm]
  constructor
  · intro hc
    rw [hred, if_neg (by simp [hc])]
    refine ⟨?_, ?_, ?_⟩
    · constructor
      · intro h1
        have h2 := Option.some.inj h1
        constructor
        · have := (Bool.and_eq_true _ _).mp h2
          exact of_decide_eq_true this.1
        · have := (Bool.and_eq_true _ _).mp h2
          exact of_decide_eq_true this.2
      · intro ⟨h1, h2⟩
        rw [decide_eq_true h1, decide_eq_true h2]
        rfl
    · intro h1
      rw [decide_eq_false h1]
      rfl
    · intro h1
      rw [decide_eq_false h1]
      simp
  · intro hc
    rw [hred, if_pos hc]
    refine ⟨?_, ?_, ?_⟩
    · constructor
      · intro h1
        have h2 := Option.some.inj h1
        constructor
        · have := (Bool.and_eq_true _ _).mp h2
          exact of_decide_eq_true this.1
        · have := (Bool.and_eq_true _ _).mp h2
          exact of_decide_eq_true this.2
      · intro ⟨h1, h2⟩
        rw [decide_eq_true h1, decide_eq_true h2]
        rfl
    · intro h1
      rw [decide_eq_false h1]
      rfl
    · intro h1
      rw [decide_eq_false h1]
      simp

/-- Claim C7 witness: with both outputs of "sample.blend" on the filesystem
and no cache the check reports true; with the thumbnail removed it reports
false. -/
theorem claim_C7_witness :
    rendersExistForRow [] [pys "cfg/render_full/sample.png", pys "cfg/render_small/sample.png"]
      (pys "cfg") (pys "sample.blend") = some true ∧
    rendersExistForRow [] [pys "cfg/render_full/sample.png"]
      (pys "cfg") (pys "sample.blend") = some false := by
  constructor
  · exact (((claim_C7_renders_exist []
      [pys "cfg/render_full/sample.png", pys "cfg/render_small/sample.png"]
      (pys "cfg") (pys "sample.blend")
      (pys "cfg/render_full/sample.png") (pys "cfg/render_small/sample.png")
      (by decide) (by decide)).1 rfl).1).mpr ⟨by decide, by decide⟩
  · exact ((claim_C7_renders_exist [] [pys "cfg/render_full/sample.png"]
      (pys "cfg") (pys "sample.blend")
      (pys "cfg/render_full/sample.png") (pys "cfg/render_small/sample.png")
      (by decide) (by decide)).1 rfl).2.2 (by decide)

-- ---------------------------------------------------------------------------
-- Claims C8, C9 (registry loading and identity resolution).
-- ---------------------------------------------------------------------------

/-- Record held in `_FORM_DATA` for one registry key: name, country, url,
and the "latest entry for this email" flag. -/
structure FormRecord where
  userName : PyStr
  country : PyStr
  url : PyStr
  latest : Bool
deriving DecidableEq

/-- Python dict lookup on the insertion-ordered association list. -/
def dictGet (d : List (PyStr × FormRecord)) (k : PyStr) : Option FormRecord :=
  (d.find? (fun p => p.1 = k)).map (fun p => p.2)

/-- Python dict assignment: overwrite in place, else append. -/
def dictSet (d : List (PyStr × FormRecord)) (k : PyStr) (v : FormRecord) :
    List (PyStr × FormRecord) :=
  if d.any (fun p => p.1 = k) then d.map (fun p => if p.1 = k then (k, v) else p)
  else d ++ [(k, v)]

/-- Python `list.index` (callers below guard or fail on absence). -/
def pyIndex (l : List PyStr) (x : PyStr) : Nat := l.findIdx (fun y => y = x)

/-- Loop body of `load_csv_metadata` for one row (iterated over
`reversed(all_rows[:-1])`): read the five columns (a missing `blend_url` or
`email` header, or a short row, raises in the source, modelled as an
error), mark the entry latest when its email was not seen yet, and store
it under its `blend_filename` key. -/
def csvRowStep (header : List PyStr)
    (acc : List (PyStr × FormRecord) × List PyStr) (row : List PyStr) :
    Except Unit (List (PyStr × FormRecord) × List PyStr) :=
  if (pys "blend_url") ∉ header ∨ (pys "email") ∉ header then Except.error ()
  else
    match row.get? (pyIndex header (pys "blend_filename")),
        row.get? (pyIndex header (pys "full_name")),
        row.get? (pyIndex header (pys "country")),
        row.get? (pyIndex header (pys "blend_url")),
        row.get? (pyIndex header (pys "email")) with
    | some key, some userName, some country, some url, some email =>
      Except.ok (dictSet acc.1 key ⟨userName, country, url, decide (email ∉ acc.2)⟩,
        if email ∈ acc.2 then acc.2 else acc.2 ++ [email])
    | _, _, _, _, _ => Except.error ()

/-- Shallow embedding of `load_csv_metadata` on the parsed TSV rows
(header row included, as in `all_rows`).  Note the source iterates
`reversed(all_rows[:-1])`: it drops the final row and processes the header
row as if it were data. -/
def loadCsvMetadata (allRows : List (List PyStr)) :
    Except Unit (List (PyStr × FormRecord)) :=
  match allRows with
  | [] => Except.error ()
  | header :: _ =>
    if (pys "blend_filename") ∉ header then Except.error ()
    else if (pys "full_name") ∉ header ∨ (pys "country") ∉ header then Except.error ()
    else
      ((allRows.dropLast).reverse.foldlM (fun acc row => csvRowStep header acc row)
        ([], [])).map (fun acc => acc.1)

/-- Index of the dot starting the `os.path.splitext` extension: the last
dot preceded by some non-dot character. -/
def lastExtDot (s : PyStr) : Option Nat :=
  (List.range s.length).foldl (fun acc i =>
    if s.getD i ' ' = '.' ∧ (List.range i).any (fun j => s.getD j ' ' ≠ '.')
    then some i else acc) none

/-- Python `os.path.splitext` on a bare file name. -/
def pySplitExt (s : PyStr) : PyStr × PyStr :=
  match lastExtDot s with
  | none => (s, [])
  | some i => (s.take i, s.drop i)

/-- Shallow embedding of `get_data_for_blend`: exact key, then the
duplicate-suffix-stripped key (`prefix[:-4] + ext`), then the similarity
loop over all keys.  That loop calls `SM`, a name never imported or
defined in the module, so with a non-empty mapping it raises `NameError`
on its first iteration, modelled as an error; with an empty mapping the
loop body never runs and the function returns none. -/
def getDataForBlend (formData : List (PyStr × FormRecord)) (blend : PyStr) :
    Except Unit (Option FormRecord) :=
  match dictGet formData blend with
  | some r => Except.ok (some r)
  | none =>
    match dictGet formData
        ((pySplitExt blend).1.take ((pySplitExt blend).1.length - 4) ++
          (pySplitExt blend).2) with
    | some r => Except.ok (some r)
    | none =>
      if formData = [] then Except.ok none
      else Except.error ()

/-- Claim C8: with a registry of exactly one data row for "sample.blend"
under the header, the loader processes `reversed(all_rows[:-1])`, i.e. it
drops the data row and ingests the header as data; resolving
"sample.blend" then finds no exact or stripped key and aborts with a
NameError in the similarity fallback (`SM` is undefined), so no queued row
can receive user_name "Jane Doe", country "US", or has_form_match true. -/
theorem claim_C8_registry_scenario :
    loadCsvMetadata [
      [pys "blend_filename", pys "full_name", pys "country", pys "blend_url", pys "email"],
      [pys "sample.blend", pys "Jane Doe", pys "US", pys "http://drive?id=abc123", pys "jane@example.com"]] =
      Except.ok [(pys "blend_filename",
        ⟨pys "full_name", pys "country", pys "blend_url", true⟩)] ∧
    dictGet [(pys "blend_filename",
        (⟨pys "full_name", pys "country", pys "blend_url", true⟩ : FormRecord))]
      (pys "sample.blend") = none ∧
    getDataForBlend [(pys "blend_filename",
        (⟨pys "full_name", pys "country", pys "blend_url", true⟩ : FormRecord))]
      (pys "sample.blend") = Except.error () :=
  ⟨rfl, rfl, rfl⟩

/-- Claim C9: when neither the exact key nor the stripped key matches and
the registry mapping is non-empty, the resolver does not perform the
similarity comparison the claim describes: its first loop iteration
evaluates the undefined name `SM` and raises NameError; with an empty
mapping it returns none without error. -/
theorem claim_C9_fuzzy_fallback_raises :
    getDataForBlend [(pys "other.blend",
        (⟨pys "Jane Doe", pys "US", pys "u", true⟩ : FormRecord))]
      (pys "sample.blend") = Except.error () ∧
    getDataForBlend [] (pys "sample.blend") = Except.ok none :=
  ⟨rfl, rfl⟩

-- ---------------------------------------------------------------------------
-- Claims C1, C2 (donut subject selection).  Geometry is over exact
-- rationals; the source computes with Python floats.
-- ---------------------------------------------------------------------------

/-- Three-component vector. -/
structure Vec3 where
  x : ℚ
  y : ℚ
  z : ℚ
deriving DecidableEq

/-- Object types distinguished by the selection code. -/
inductive ObjType
  | empty_type
  | mesh
  | other
deriving DecidableEq

/-- One scene object with the fields the selection heuristic reads.
`matrix_world` is modelled as the object's own z-rotation (the cosine/sine
pair `rotC`/`rotS` of `rotation_euler[2]`) followed by the translation
`loc`; parent transforms and scaling are treated as the identity.
`boundBox` holds the 8 local bounding-box corners.  `geoNodes` is true
when a modifier of type "NODES" is present; `particleSystems` when the
particle-system list is non-empty. -/
structure Obj where
  name : PyStr
  objType : ObjType
  polygons : Nat
  parent : Option PyStr
  particleSystems : Bool
  geoNodes : Bool
  hideGet : Bool
  hideViewport : Bool
  hideRender : Bool
  boundBox : List Vec3
  loc : Vec3
  rotC : ℚ
  rotS : ℚ
deriving DecidableEq

/-- Application of the modelled `matrix_world` to a local corner. -/
def matWorld (ob : Obj) (v : Vec3) : Vec3 :=
  ⟨ob.rotC * v.x - ob.rotS * v.y + ob.loc.x,
    ob.rotS * v.x + ob.rotC * v.y + ob.loc.y,
    v.z + ob.loc.z⟩

/-- Accumulator of the bound-scan loop in `get_avg_pos_and_scale`. -/
structure BoundsAcc where
  sumPos : Vec3
  minX : Option ℚ
  maxX : Option ℚ
  minY : Option ℚ
  maxY : Option ℚ
  minZ : Option ℚ
  maxZ : Option ℚ

/-- Update of one running minimum, `if not min_x or bound < min_x`.  In
Python `not min_x` is true for `None` and also for `0.0`: a bound that is
exactly zero is treated as unset, faithfully modelled here. -/
def pyMinUpd (cur : Option ℚ) (b : ℚ) : Option ℚ :=
  if cur = none ∨ cur = some 0 ∨ b < cur.getD 0 then some b else cur

/-- Update of one running maximum, `if not max_x or bound > max_x`, with
the same falsy-zero behaviour. -/
def pyMaxUpd (cur : Option ℚ) (b : ℚ) : Option ℚ :=
  if cur = none ∨ cur = some 0 ∨ cur.getD 0 < b then some b else cur

/-- One iteration of the bound-scan loop in `get_avg_pos_and_scale`. -/
def boundsStep (acc : BoundsAcc) (b : Vec3) : BoundsAcc :=
  ⟨⟨acc.sumPos.x + b.x, acc.sumPos.y + b.y, acc.sumPos.z + b.z⟩,
    pyMinUpd acc.minX b.x, pyMaxUpd acc.maxX b.x,
    pyMinUpd acc.minY b.y, pyMaxUpd acc.maxY b.y,
    pyMinUpd acc.minZ b.z, pyMaxUpd acc.maxZ b.z⟩

/-- Shallow embedding of `get_avg_pos_and_scale`: average world bound-box
corner position and the xy planar size ((width + depth) / 2), computed
with the object's current rotation applied.  (With an empty corner list
the source would raise; the `getD 0` defaults are never reached on the
8-corner boxes used here.) -/
def getAvgPosAndScale (ob : Obj) : Vec3 × ℚ :=
  let acc := (ob.boundBox.map (matWorld ob)).foldl boundsStep
    ⟨⟨0, 0, 0⟩, none, none, none, none, none, none⟩
  (⟨acc.sumPos.x / 8, acc.sumPos.y / 8, acc.sumPos.z / 8⟩,
    ((acc.maxX.getD 0 - acc.minX.getD 0) + (acc.maxY.getD 0 - acc.minY.getD 0)) / 2)

/-- Measured planar size used by the selection loop. -/
def xyScale (ob : Obj) : ℚ := (getAvgPosAndScale ob).2

def listMinQ : List ℚ → ℚ
  | [] => 0
  | a :: t => t.foldl min a

def listMaxQ : List ℚ → ℚ
  | [] => 0
  | a :: t => t.foldl max a

/-- Modelled from the spec: the claim's planar size, "the average of the
world-space bounding-box width and depth, measured with the object's
z-rotation temporarily neutralized" — true minima/maxima over the corners
with the z-rotation set to zero.  Used only to compare the claim's
selection rule against the code's. -/
def specNeutralizedPlanarSize (ob : Obj) : ℚ :=
  ((listMaxQ ((ob.boundBox.map (matWorld { ob with rotC := 1, rotS := 0 })).map Vec3.x) -
      listMinQ ((ob.boundBox.map (matWorld { ob with rotC := 1, rotS := 0 })).map Vec3.x)) +
    (listMaxQ ((ob.boundBox.map (matWorld { ob with rotC := 1, rotS := 0 })).map Vec3.y) -
      listMinQ ((ob.boundBox.map (matWorld { ob with rotC := 1, rotS := 0 })).map Vec3.y))) / 2

/-- Shallow embedding of `ineligible_donut_name` (note the denylist
contains "cup" twice, as in the source). -/
def ineligibleDonutName (compareName : PyStr) : Bool :=
  [pys "cup", pys "plate", pys "plato", pys "taza", pys "cup", pys "mug",
    pys "table", pys "floor", pys "ground"].any
    (fun rmName => pyInB rmName (pyLower compareName))

/-- Resolution of `ob.parent`; a dangling name (impossible in a live
scene) is treated like no parent. -/
def parentOf (scene : List Obj) (ob : Obj) : Option Obj :=
  ob.parent.bind (fun p => scene.find? (fun o => o.name = p))

/-- Parent test of the base-candidate loop: hidden, denylisted, near-empty
mesh, or empty-typed parents do not disqualify (and get severed). -/
def donutParentHide (p : Obj) : Bool :=
  if p.objType = ObjType.empty_type then true
  else p.hideGet || p.hideViewport || p.hideRender || ineligibleDonutName p.name
    || (decide (p.objType = ObjType.mesh) && decide (p.polygons < 2))

/-- One iteration of the base-candidate loop of `get_interest_objects`:
accumulates the candidate list and the names whose parent link the loop
cleared (`ob.parent = None`), which it does before the polygon test. -/
def processBaseStep (scene : List Obj) (acc : List Obj × List PyStr) (ob : Obj) :
    List Obj × List PyStr :=
  if ob.objType ≠ ObjType.mesh then acc
  else
    match parentOf scene ob with
    | some p =>
      if donutParentHide p = false then acc
      else
        if ob.polygons < 150 ∧ ob.geoNodes = false then (acc.1, acc.2 ++ [ob.name])
        else (acc.1 ++ [{ ob with parent := none }], acc.2 ++ [ob.name])
    | none =>
      if ob.polygons < 150 ∧ ob.geoNodes = false then acc
      else (acc.1 ++ [ob], acc.2)

/-- Base-candidate gathering over the scene's object list. -/
def processBase (scene : List Obj) : List Obj × List PyStr :=
  scene.foldl (processBaseStep scene) ([], [])

/-- Candidate pool for the base donut. -/
def baseCandidatesOf (scene : List Obj) : List Obj := (processBase scene).1

/-- Scene after the base loop's parent clearing. -/
def clearedScene (scene : List Obj) : List Obj :=
  scene.map (fun ob => if ob.name ∈ (processBase scene).2
    then { ob with parent := none } else ob)

/-- Icing pool: meshes bearing a particle system with at least 150
polygons. -/
def icingCandidatesOf (scene : List Obj) : List Obj :=
  scene.filter (fun ob => decide (ob.objType = ObjType.mesh)
    && ob.particleSystems && decide (150 ≤ ob.polygons))

/-- Children of an object, read off the current parent links. -/
def childrenOf (scene : List Obj) (ob : Obj) : List Obj :=
  scene.filter (fun c => c.parent = some ob.name)

/-- Base candidates that have at least one icing candidate as a direct
child (object identity is name identity; Blender names are unique). -/
def baseWithIcingOf (scene : List Obj) : List Obj :=
  (baseCandidatesOf scene).filter (fun ob =>
    (childrenOf (clearedScene scene) ob).any (fun child =>
      (icingCandidatesOf (clearedScene scene)).any (fun ic => ic.name = child.name)))

/-- Largest-wins selection loop (`size = 0`, strict improvement only). -/
def pickLoop : List Obj → ℚ → Option Obj → Option Obj
  | [], _, best => best
  | d :: rest, size, best =>
    if size < xyScale d then pickLoop rest (xyScale d) (some d)
    else pickLoop rest size best

/-- Selection entry: first strict running maximum of the measured size. -/
def pickLargest (l : List Obj) : Option Obj := pickLoop l 0 none

/-- Pool the final selection iterates over. -/
def chosenPoolOf (scene : List Obj) : List Obj :=
  if baseWithIcingOf scene ≠ [] then baseWithIcingOf scene else baseCandidatesOf scene

/-- Shallow embedding of `get_interest_objects(context, scn, this_row)`:
returns the possibly QC-extended row and, unless the base pool was empty
(where the source records "No base mesh found" and falls off with a bare
`return`, modelled as `none`), the selected base donut, the `from_icing`
flag and the icing candidates. -/
def getInterestObjects (scene : List Obj) (row : Row) :
    Row × Option (Option Obj × Option Bool × List Obj) :=
  if baseCandidatesOf scene = [] then
    ((extendQcError row errNoBaseMesh false).1, none)
  else
    (row, some (pickLargest (chosenPoolOf scene),
      (if baseWithIcingOf scene ≠ [] then some true
        else if baseCandidatesOf scene ≠ [] then some false else none),
      icingCandidatesOf (clearedScene scene)))

theorem pickLoop_stay : ∀ (l : List Obj) (m : ℚ) (b : Option Obj),
    (∀ x ∈ l, xyScale x ≤ m) → pickLoop l m b = b := by
  intro l
  induction l with
  | nil => intro m b _; rfl
  | cons d rest ih =>
    intro m b h
    rw [pickLoop, if_neg (not_lt.mpr (h d (List.mem_cons_self _ _)))]
    exact ih m b (fun x hx => h x (List.mem_cons_of_mem _ hx))

theorem pickLoop_split : ∀ (l1 : List Obj) (d : Obj) (l2 : List Obj) (acc : ℚ)
    (b : Option Obj), acc < xyScale d →
    (∀ x ∈ l1, xyScale x < xyScale d) → (∀ x ∈ l2, xyScale x ≤ xyScale d) →
    pickLoop (l1 ++ d :: l2) acc b = some d := by
  intro l1
  induction l1 with
  | nil =>
    intro d l2 acc b hacc _ hafter
    rw [List.nil_append, pickLoop, if_pos hacc]
    exact pickLoop_stay l2 (xyScale d) (some d) hafter
  | cons a t ih =>
    intro d l2 acc b hacc hbefore hafter
    rw [List.cons_append, pickLoop]
    by_cases ha : acc < xyScale a
    · rw [if_pos ha]
      exact ih d l2 (xyScale a) (some a)
        (hbefore a (List.mem_cons_self _ _))
        (fun x hx => hbefore x (List.mem_cons_of_mem _ hx)) hafter
    · rw [if_neg ha]
      exact ih d l2 acc b hacc
        (fun x hx => hbefore x (List.mem_cons_of_mem _ hx)) hafter

theorem pickLoop_cases : ∀ (l : List Obj) (acc : ℚ) (b : Option Obj),
    pickLoop l acc b = b ∨ ∃ d ∈ l, pickLoop l acc b = some d := by
  intro l
  induction l with
  | nil => intro acc b; exact Or.inl rfl
  | cons a t ih =>
    intro acc b
    rw [pickLoop]
    by_cases ha : acc < xyScale a
    · rw [if_pos ha]
      rcases ih (xyScale a) (some a) with h | ⟨d, hd, hres⟩
      · exact Or.inr ⟨a, List.mem_cons_self _ _, h⟩
      · exact Or.inr ⟨d, List.mem_cons_of_mem _ hd, hres⟩
    · rw [if_neg ha]
      rcases ih acc b with h | ⟨d, hd, hres⟩
      · exact Or.inl h
      · exact Or.inr ⟨d, List.mem_cons_of_mem _ hd, hres⟩

theorem pickLoop_isSome : ∀ (l : List Obj) (acc : ℚ) (y : Obj),
    ∃ z, pickLoop l acc (some y) = some z := by
  intro l
  induction l with
  | nil => intro acc y; exact ⟨y, rfl⟩
  | cons a t ih =>
    intro acc y
    rw [pickLoop]
    by_cases ha : acc < xyScale a
    · rw [if_pos ha]
      exact ih (xyScale a) a
    · rw [if_neg ha]
      exact ih acc y

theorem pickLoop_some_of_exists : ∀ (l : List Obj) (acc : ℚ),
    (∃ d ∈ l, acc < xyScale d) → ∃ z, pickLoop l acc none = some z := by
  intro l
  induction l with
  | nil =>
    intro acc h
    rcases h with ⟨d, hd, -⟩
    exact absurd hd (by simp)
  | cons a t ih =>
    intro acc h
    rw [pickLoop]
    by_cases ha : acc < xyScale a
    · rw [if_pos ha]
      exact pickLoop_isSome t (xyScale a) a
    · rw [if_neg ha]
      apply ih acc
      rcases h with ⟨d, hd, hlt⟩
      rcases List.mem_cons.mp hd with h1 | h1
      · rw [← h1] at ha
        exact absurd hlt ha
      · exact ⟨d, h1, hlt⟩

theorem pickLargest_mem_of_pos (l : List Obj) (h : ∃ d ∈ l, 0 < xyScale d) :
    ∃ d ∈ l, pickLargest l = some d := by
  rcases pickLoop_some_of_exists l 0 h with ⟨z, hz⟩
  rcases pickLoop_cases l 0 none with h1 | ⟨d, hd, hres⟩
  · rw [h1] at hz
    exact absurd hz (by simp)
  · exact ⟨d, hd, hres⟩

theorem getInterestObjects_of_empty (scene : List Obj) (row : Row)
    (h : baseCandidatesOf scene = []) :
    getInterestObjects scene row = ((extendQcError row errNoBaseMesh false).1, none) := by
  rw [getInterestObjects, if_pos h]

theorem getInterestObjects_of_nonempty (scene : List Obj) (row : Row)
    (h : baseCandidatesOf scene ≠ []) :
    getInterestObjects scene row = (row, some (pickLargest (chosenPoolOf scene),
      (if baseWithIcingOf scene ≠ [] then some true
        else if baseCandidatesOf scene ≠ [] then some false else none),
      icingCandidatesOf (clearedScene scene))) := by
  rw [getInterestObjects, if_neg h]

theorem tokHead_mem_after_extend (row : Row) (e : PyStr) (he : e ≠ [])
    (hsemi : ';' ∉ e) :
    tokHead e ∈ (qcTokens (extendQcError row e false).1.qc_error).map tokHead := by
  by_cases hmem : tokHead e ∈ (qcTokens row.qc_error).map tokHead
  · rw [extendQcError_head_mem row e hmem]
    exact hmem
  · rw [extendQcError_append_false row e hmem]
    have hfree : ∀ t ∈ qcTokens row.qc_error ++ [e], ';' ∉ t := by
      intro t ht
      rcases List.mem_append.mp ht with h1 | h1
      · exact mem_qcTokens_not_mem h1
      · simp at h1
        subst h1
        exact hsemi
    show tokHead e ∈ (qcTokens (joinChar ';' (qcTokens row.qc_error ++ [e]))).map tokHead
    rw [qcTokens_joinChar hfree, List.filter_append, filter_ne_nil_qcTokens]
    have : List.filter (fun t => t ≠ []) [e] = [e] := by simp [he]
    rw [this, List.map_append]
    exact List.mem_append.mpr (Or.inr (by simp))

/-- Claim C1 (amended): if there are no base candidates the result is no
subject plus the "No base mesh found" QC tag; when the decoration-hosting
pool is non-empty and some member has positive measured planar size, the
subject comes from that pool (regardless of larger candidates outside it);
when that pool is empty the subject comes from the full base pool under
the same positivity proviso.  With every measured size zero the selection
loop's strict comparison never fires and no subject is returned. -/
theorem claim_C1_decoration_pool (scene : List Obj) (row : Row) :
    (baseCandidatesOf scene = [] →
      (getInterestObjects scene row).2 = none ∧
      tokHead errNoBaseMesh ∈
        (qcTokens (getInterestObjects scene row).1.qc_error).map tokHead) ∧
    (baseWithIcingOf scene ≠ [] →
      (∃ d ∈ baseWithIcingOf scene, 0 < xyScale d) →
      ∃ d ∈ baseWithIcingOf scene, (getInterestObjects scene row).2 =
        some (some d, some true, icingCandidatesOf (clearedScene scene))) ∧
    (baseWithIcingOf scene = [] → baseCandidatesOf scene ≠ [] →
      (∃ d ∈ baseCandidatesOf scene, 0 < xyScale d) →
      ∃ d ∈ baseCandidatesOf scene, (getInterestObjects scene row).2 =
        some (some d, some false, icingCandidatesOf (clearedScene scene))) := by
  refine ⟨?_, ?_, ?_⟩
  · intro h
    rw [getInterestObjects_of_empty scene row h]
    exact ⟨rfl, tokHead_mem_after_extend row errNoBaseMesh (by decide) (by decide)⟩
  · intro hbwi hpos
    have hbase : baseCandidatesOf scene ≠ [] := by
      intro hc
      apply hbwi
      rw [baseWithIcingOf, hc]
      rfl
    rcases pickLargest_mem_of_pos (baseWithIcingOf scene) hpos with ⟨d, hd, hpick⟩
    refine ⟨d, hd, ?_⟩
    rw [getInterestObjects_of_nonempty scene row hbase]
    show some (pickLargest (chosenPoolOf scene),
      (if baseWithIcingOf scene ≠ [] then some true
        else if baseCandidatesOf scene ≠ [] then some false else none),
      icingCandidatesOf (clearedScene scene)) =
      some (some d, some true, icingCandidatesOf (clearedScene scene))
    have hchosen : chosenPoolOf scene = baseWithIcingOf scene := by
      rw [chosenPoolOf, if_pos hbwi]
    rw [hchosen, hpick, if_pos hbwi]
  · intro hbwi hbase hpos
    rcases pickLargest_mem_of_pos (baseCandidatesOf scene) hpos with ⟨d, hd, hpick⟩
    refine ⟨d, hd, ?_⟩
    rw [getInterestObjects_of_nonempty scene row hbase]
    show some (pickLargest (chosenPoolOf scene),
      (if baseWithIcingOf scene ≠ [] then some true
        else if baseCandidatesOf scene ≠ [] then some false else none),
      icingCandidatesOf (clearedScene scene)) =
      some (some d, some false, icingCandidatesOf (clearedScene scene))
    have hchosen : chosenPoolOf scene = baseCandidatesOf scene := by
      rw [chosenPoolOf, if_neg (by simp [hbwi])]
    rw [hchosen, hpick, if_neg (by simp [hbwi]), if_pos hbase]

/-- Point-degenerate base mesh (150 polygons collapsed onto one point, so
all 8 bound-box corners coincide) hosting a decoration child. -/
def donutDgn : Obj :=
  ⟨pys "base", ObjType.mesh, 150, none, false, false, false, false, false,
    [⟨1, 1, 1⟩, ⟨1, 1, 1⟩, ⟨1, 1, 1⟩, ⟨1, 1, 1⟩,
      ⟨1, 1, 1⟩, ⟨1, 1, 1⟩, ⟨1, 1, 1⟩, ⟨1, 1, 1⟩], ⟨0, 0, 0⟩, 1, 0⟩

/-- Particle-bearing decoration child of `donutDgn`. -/
def icingAtop : Obj :=
  ⟨pys "ice", ObjType.mesh, 150, some (pys "base"), true, false, false, false, false,
    [⟨1, 1, 1⟩, ⟨1, 1, 2⟩, ⟨1, 2, 2⟩, ⟨1, 2, 1⟩,
      ⟨2, 1, 1⟩, ⟨2, 1, 2⟩, ⟨2, 2, 2⟩, ⟨2, 2, 1⟩], ⟨0, 0, 0⟩, 1, 0⟩

theorem xyScale_donutDgn : xyScale donutDgn = 0 := by
  norm_num [xyScale, getAvgPosAndScale, donutDgn, matWorld, boundsStep,
    pyMinUpd, pyMaxUpd, List.foldl, Option.getD, Option.some.injEq,
    Option.some_ne_none]

/-- Claim C1 counterexample: a scene whose only base candidate hosts a
decoration child but measures planar size 0; the decoration-hosting pool
is non-empty, yet no subject at all is selected from it. -/
theorem claim_C1_counterexample :
    baseWithIcingOf [donutDgn, icingAtop] = [donutDgn] ∧
    (getInterestObjects [donutDgn, icingAtop]
        ⟨[], [], QueueStatus.not_queued⟩).2 = some (none, some true, [icingAtop]) := by
  have hbwi : baseWithIcingOf [donutDgn, icingAtop] = [donutDgn] := rfl
  have hbase : baseCandidatesOf [donutDgn, icingAtop] ≠ [] := by decide
  have hpick : pickLargest [donutDgn] = none := by
    show pickLoop [donutDgn] 0 none = none
    rw [pickLoop, if_neg (by rw [xyScale_donutDgn]; exact lt_irrefl 0)]
    rfl
  refine ⟨hbwi, ?_⟩
  rw [getInterestObjects_of_nonempty _ _ hbase]
  show some (pickLargest (chosenPoolOf [donutDgn, icingAtop]),
    (if baseWithIcingOf [donutDgn, icingAtop] ≠ [] then some true
      else if baseCandidatesOf [donutDgn, icingAtop] ≠ [] then some false else none),
    icingCandidatesOf (clearedScene [donutDgn, icingAtop])) =
    some (none, some true, [icingAtop])
  have hchosen : chosenPoolOf [donutDgn, icingAtop] = [donutDgn] := by
    rw [chosenPoolOf, if_pos (by rw [hbwi]; simp), hbwi]
  have hicing : icingCandidatesOf (clearedScene [donutDgn, icingAtop]) = [icingAtop] := rfl
  rw [hchosen, hpick, if_pos (by rw [hbwi]; simp), hicing]

/-- Large plain base mesh (planar size 2) without decoration children. -/
def plainBigW : Obj :=
  ⟨pys "plain", ObjType.mesh, 200, none, false, false, false, false, false,
    [⟨1, 1, 1⟩, ⟨1, 1, 2⟩, ⟨1, 3, 2⟩, ⟨1, 3, 1⟩,
      ⟨3, 1, 1⟩, ⟨3, 1, 2⟩, ⟨3, 3, 2⟩, ⟨3, 3, 1⟩], ⟨0, 0, 0⟩, 1, 0⟩

/-- Smaller base mesh (planar size 3/2) hosting a decoration child. -/
def hostSmallW : Obj :=
  ⟨pys "host", ObjType.mesh, 150, none, false, false, false, false, false,
    [⟨1, 1, 1⟩, ⟨1, 1, 2⟩, ⟨1, 3, 2⟩, ⟨1, 3, 1⟩,
      ⟨2, 1, 1⟩, ⟨2, 1, 2⟩, ⟨2, 3, 2⟩, ⟨2, 3, 1⟩], ⟨0, 0, 0⟩, 1, 0⟩

/-- Particle-bearing decoration child of `hostSmallW`. -/
def toppingW : Obj :=
  ⟨pys "topping", ObjType.mesh, 150, some (pys "host"), true, false, false, false, false,
    [⟨1, 1, 1⟩, ⟨1, 1, 2⟩, ⟨1, 2, 2⟩, ⟨1, 2, 1⟩,
      ⟨2, 1, 1⟩, ⟨2, 1, 2⟩, ⟨2, 2, 2⟩, ⟨2, 2, 1⟩], ⟨0, 0, 0⟩, 1, 0⟩

theorem xyScale_hostSmallW : xyScale hostSmallW = 3 / 2 := by
  norm_num [xyScale, getAvgPosAndScale, hostSmallW, matWorld, boundsStep,
    pyMinUpd, pyMaxUpd, List.foldl, Option.getD, Option.some.injEq,
    Option.some_ne_none]

/-- Claim C1 witness: an empty scene yields no subject plus the QC tag,
and in a scene where the only decoration-hosting candidate (size 3/2) is
smaller than a plain candidate (size 2) the subject still comes from the
decoration-hosting pool. -/
theorem claim_C1_witness :
    ((getInterestObjects [] ⟨[], [], QueueStatus.not_queued⟩).2 = none ∧
      tokHead errNoBaseMesh ∈
        (qcTokens (getInterestObjects []
          ⟨[], [], QueueStatus.not_queued⟩).1.qc_error).map tokHead) ∧
    (∃ d ∈ baseWithIcingOf [plainBigW, hostSmallW, toppingW],
      (getInterestObjects [plainBigW, hostSmallW, toppingW]
          ⟨[], [], QueueStatus.not_queued⟩).2 =
        some (some d, some true,
          icingCandidatesOf (clearedScene [plainBigW, hostSmallW, toppingW]))) := by
  constructor
  · exact (claim_C1_decoration_pool [] ⟨[], [], QueueStatus.not_queued⟩).1 rfl
  · refine (claim_C1_decoration_pool [plainBigW, hostSmallW, toppingW]
      ⟨[], [], QueueStatus.not_queued⟩).2.1 (by decide) ?_
    refine ⟨hostSmallW, ?_, ?_⟩
    · rw [show baseWithIcingOf [plainBigW, hostSmallW, toppingW] = [hostSmallW] from rfl]
      exact List.mem_cons_self _ _
    · rw [xyScale_hostSmallW]
      norm_num

/-- Claim C2 (amended): within the chosen pool the selector returns the
first object attaining the strictly largest measured planar size, where
the measurement (get_avg_pos_and_scale) applies the object's current
rotation — the z-rotation is neutralized only for the later centering
measurement of the already-selected object, not during selection — and a
positive maximum is required for anything to be selected at all; ties go
to the earlier pool element. -/
theorem claim_C2_largest_measured (scene : List Obj) (row : Row) (d : Obj)
    (l1 l2 : List Obj)
    (hbase : baseCandidatesOf scene ≠ [])
    (hpool : chosenPoolOf scene = l1 ++ d :: l2)
    (hpos : 0 < xyScale d)
    (hbefore : ∀ x ∈ l1, xyScale x < xyScale d)
    (hafter : ∀ x ∈ l2, xyScale x ≤ xyScale d) :
    (getInterestObjects scene row).2 =
      some (some d,
        (if baseWithIcingOf scene ≠ [] then some true
          else if baseCandidatesOf scene ≠ [] then some false else none),
        icingCandidatesOf (clearedScene scene)) := by
  rw [getInterestObjects_of_nonempty scene row hbase]
  show some (pickLargest (chosenPoolOf scene),
    (if baseWithIcingOf scene ≠ [] then some true
      else if baseCandidatesOf scene ≠ [] then some false else none),
    icingCandidatesOf (clearedScene scene)) =
    some (some d,
      (if baseWithIcingOf scene ≠ [] then some true
        else if baseCandidatesOf scene ≠ [] then some false else none),
      icingCandidatesOf (clearedScene scene))
  have hpick : pickLargest (chosenPoolOf scene) = some d := by
    rw [hpool]
    exact pickLoop_split l1 d l2 0 none hpos hbefore hafter
  rw [hpick]

/-- Unit square rotated about z by the 3-4-5 rotation (cos 3/5, sin 4/5):
its rotated bound box measures 7/5, its unrotated footprint only 1. -/
def rotSq : Obj :=
  ⟨pys "rotsq", ObjType.mesh, 200, none, false, false, false, false, false,
    [⟨-(1/2), -(1/2), 1/10⟩, ⟨-(1/2), -(1/2), 2/10⟩, ⟨-(1/2), 1/2, 2/10⟩,
      ⟨-(1/2), 1/2, 1/10⟩, ⟨1/2, -(1/2), 1/10⟩, ⟨1/2, -(1/2), 2/10⟩,
      ⟨1/2, 1/2, 2/10⟩, ⟨1/2, 1/2, 1/10⟩], ⟨0, 0, 0⟩, 3/5, 4/5⟩

/-- Unrotated square of side 6/5. -/
def flatSq : Obj :=
  ⟨pys "flatsq", ObjType.mesh, 200, none, false, false, false, false, false,
    [⟨1/10, 1/10, 1/10⟩, ⟨1/10, 1/10, 2/10⟩, ⟨1/10, 13/10, 2/10⟩,
      ⟨1/10, 13/10, 1/10⟩, ⟨13/10, 1/10, 1/10⟩, ⟨13/10, 1/10, 2/10⟩,
      ⟨13/10, 13/10, 2/10⟩, ⟨13/10, 13/10, 1/10⟩], ⟨0, 0, 0⟩, 1, 0⟩

theorem xyScale_rotSq : xyScale rotSq = 7 / 5 := by
  norm_num [xyScale, getAvgPosAndScale, rotSq, matWorld, boundsStep,
    pyMinUpd, pyMaxUpd, List.foldl, Option.getD, Option.some.injEq,
    Option.some_ne_none]

theorem xyScale_flatSq : xyScale flatSq = 6 / 5 := by
  norm_num [xyScale, getAvgPosAndScale, flatSq, matWorld, boundsStep,
    pyMinUpd, pyMaxUpd, List.foldl, Option.getD, Option.some.injEq,
    Option.some_ne_none]

theorem specSize_rotSq : specNeutralizedPlanarSize rotSq = 1 := by
  norm_num [specNeutralizedPlanarSize, rotSq, matWorld, listMinQ, listMaxQ,
    List.foldl, min_def, max_def]

theorem specSize_flatSq : specNeutralizedPlanarSize flatSq = 6 / 5 := by
  norm_num [specNeutralizedPlanarSize, flatSq, matWorld, listMinQ, listMaxQ,
    List.foldl, min_def, max_def]

/-- Claim C2 counterexample: both squares are in the chosen pool; the code
selects the rotated unit square (measured size 7/5, rotation applied)
although its z-rotation-neutralized planar size (1) is strictly smaller
than the other candidate's (6/5) — the claim's neutralized-measurement
rule would select the other object. -/
theorem claim_C2_counterexample :
    chosenPoolOf [rotSq, flatSq] = [rotSq, flatSq] ∧
    (getInterestObjects [rotSq, flatSq] ⟨[], [], QueueStatus.not_queued⟩).2 =
      some (some rotSq, some false, []) ∧
    specNeutralizedPlanarSize rotSq < specNeutralizedPlanarSize flatSq := by
  have hchosen : chosenPoolOf [rotSq, flatSq] = [rotSq, flatSq] := rfl
  refine ⟨hchosen, ?_, ?_⟩
  · have hbase : baseCandidatesOf [rotSq, flatSq] ≠ [] := by decide
    have hpick : pickLargest (chosenPoolOf [rotSq, flatSq]) = some rotSq := by
      rw [hchosen]
      exact pickLoop_split [] rotSq [flatSq] 0 none
        (by rw [xyScale_rotSq]; norm_num)
        (fun x hx => absurd hx (by simp))
        (by
          intro x hx
          have hxe : x = flatSq := by simpa using hx
          rw [hxe, xyScale_flatSq, xyScale_rotSq]
          norm_num)
    rw [getInterestObjects_of_nonempty _ _ hbase]
    show some (pickLargest (chosenPoolOf [rotSq, flatSq]),
      (if baseWithIcingOf [rotSq, flatSq] ≠ [] then some true
        else if baseCandidatesOf [rotSq, flatSq] ≠ [] then some false else none),
      icingCandidatesOf (clearedScene [rotSq, flatSq])) =
      some (some rotSq, some false, [])
    rw [hpick, if_neg (by decide), if_pos (by decide),
      show icingCandidatesOf (clearedScene [rotSq, flatSq]) = ([] : List Obj) from rfl]
  · rw [specSize_rotSq, specSize_flatSq]
    norm_num

/-- Base candidate of planar size 2. -/
def wideW : Obj :=
  ⟨pys "wide", ObjType.mesh, 200, none, false, false, false, false, false,
    [⟨1, 1, 1⟩, ⟨1, 1, 2⟩, ⟨1, 3, 2⟩, ⟨1, 3, 1⟩,
      ⟨3, 1, 1⟩, ⟨3, 1, 2⟩, ⟨3, 3, 2⟩, ⟨3, 3, 1⟩], ⟨0, 0, 0⟩, 1, 0⟩

/-- Base candidate of planar size 3/2. -/
def narrowW : Obj :=
  ⟨pys "narrow", ObjType.mesh, 200, none, false, false, false, false, false,
    [⟨1, 1, 1⟩, ⟨1, 1, 2⟩, ⟨1, 3, 2⟩, ⟨1, 3, 1⟩,
      ⟨2, 1, 1⟩, ⟨2, 1, 2⟩, ⟨2, 3, 2⟩, ⟨2, 3, 1⟩], ⟨0, 0, 0⟩, 1, 0⟩

theorem xyScale_wideW : xyScale wideW = 2 := by
  norm_num [xyScale, getAvgPosAndScale, wideW, matWorld, boundsStep,
    pyMinUpd, pyMaxUpd, List.foldl, Option.getD, Option.some.injEq,
    Option.some_ne_none]

theorem xyScale_narrowW : xyScale narrowW = 3 / 2 := by
  norm_num [xyScale, getAvgPosAndScale, narrowW, matWorld, boundsStep,
    pyMinUpd, pyMaxUpd, List.foldl, Option.getD, Option.some.injEq,
    Option.some_ne_none]

/-- Claim C2 witness: two decoration-free base candidates of measured
planar sizes 2 and 3/2 — the size-2 object is selected. -/
theorem claim_C2_witness :
    (getInterestObjects [wideW, narrowW] ⟨[], [], QueueStatus.not_queued⟩).2 =
      some (some wideW, some false, []) := by
  have h := claim_C2_largest_measured [wideW, narrowW]
    ⟨[], [], QueueStatus.not_queued⟩ wideW [] [narrowW] (by decide) rfl
    (by rw [xyScale_wideW]; norm_num)
    (fun x hx => absurd hx (by simp))
    (by
      intro x hx
      have hxe : x = narrowW := by simpa using hx
      rw [hxe, xyScale_narrowW, xyScale_wideW]
      norm_num)
  rw [h, if_neg (by decide), if_pos (by decide),
    show icingCandidatesOf (clearedScene [wideW, narrowW]) = ([] : List Obj) from rfl]
